import Mathlib

/-!
# gofident: verification of requests signed by the fident identity service

A shallow embedding of `fident.go` (package `gofident`) and the properties of
its signature check.

Go strings and byte slices are sequences of bytes, modelled as `List Nat`.
The header map `http.Header` (`map[string][]string`) is an association list
whose list order stands for the (unspecified) order in which `range` enumerates
the map.  The hash and signature primitives of `crypto/sha256` and `crypto/rsa`
are taken as parameters; `net/textproto`, `sort`, `strings` and
`encoding/base64` are embedded as the functions the source calls.
-/

namespace Gofident

/-! ## Strings -/

/-- A Go string (or byte slice): a finite sequence of bytes. -/
abbrev GoString := List Nat

/-- The bytes of an ASCII string literal. -/
def ascii (s : String) : GoString := s.toList.map Char.toNat

/-- Go `strings.HasPrefix(s, p)`: `s` begins with the bytes of `p`. -/
def HasPrefix : GoString → GoString → Bool
  | _, [] => true
  | [], _ :: _ => false
  | a :: s, b :: p => a == b && HasPrefix s p

/-- Go `a < b` on strings: byte-wise lexicographic comparison. -/
def stringLess : GoString → GoString → Bool
  | [], [] => false
  | [], _ :: _ => true
  | _ :: _, [] => false
  | a :: as, b :: bs => if a < b then true else if b < a then false else stringLess as bs

/-- Go `a <= b` on strings, that is `!(b < a)`. -/
def stringLE (a b : GoString) : Bool := !stringLess b a

/-- Go `sort.Strings`: the arrangement of the slice in ascending byte-wise order. -/
def sortStrings (keys : List GoString) : List GoString :=
  keys.insertionSort (fun a b => stringLE a b = true)

/-! ## `net/textproto`: canonical header keys and `Header.Get` -/

/-- Go `validHeaderFieldByte`: the token characters of RFC 7230. -/
def validHeaderFieldByte (c : Nat) : Bool :=
  (48 ≤ c && c ≤ 57) || (97 ≤ c && c ≤ 122) || (65 ≤ c && c ≤ 90) ||
  [33, 35, 36, 37, 38, 39, 42, 43, 45, 46, 94, 95, 96, 124, 126].contains c

/-- The case-fixing loop of Go `canonicalMIMEHeaderKey`: upper case at the start and
after each dash, lower case elsewhere; `upper` is the loop variable of the source. -/
def canonicalLoop : Bool → GoString → GoString
  | _, [] => []
  | upper, c :: rest =>
    let c1 :=
      if upper && (97 ≤ c && c ≤ 122) then c - 32
      else if !upper && (65 ≤ c && c ≤ 90) then c + 32
      else c
    c1 :: canonicalLoop (c1 == 45) rest

/-- Go `textproto.CanonicalMIMEHeaderKey`: a key holding a byte that is not a valid
header field byte (a space included) is returned unchanged, any other key is
case-fixed. -/
def CanonicalMIMEHeaderKey (s : GoString) : GoString :=
  if s.all validHeaderFieldByte then canonicalLoop true s else s

/-- Go `http.Header`, a `map[string][]string`; the list order is the enumeration order. -/
abbrev Header := List (GoString × List GoString)

/-- The names enumerated by `for k := range h`. -/
def Header.keys (h : Header) : List GoString := h.map Prod.fst

/-- Go map indexing `h[key]`. -/
def Header.index (h : Header) (key : GoString) : Option (List GoString) := h.lookup key

/-- Go `Header.Get`: the first value stored under the canonical form of `key`,
the empty string when there is none. -/
def Header.Get (h : Header) (key : GoString) : GoString :=
  match h.index (CanonicalMIMEHeaderKey key) with
  | some (v :: _) => v
  | _ => []

/-- The invariant of a Go map: no name occurs twice. -/
def Header.uniqueKeys (h : Header) : Prop := h.keys.Nodup

/-- The documented form of `http.Header`: every name is in canonical form, as
returned by `CanonicalMIMEHeaderKey` (so it is for every request parsed by `net/http`). -/
def Header.canonicalKeys (h : Header) : Prop := ∀ k ∈ h.keys, CanonicalMIMEHeaderKey k = k

instance (h : Header) : Decidable h.uniqueKeys := by
  unfold Header.uniqueKeys; infer_instance

instance (h : Header) : Decidable h.canonicalKeys := by
  unfold Header.canonicalKeys; infer_instance

/-- The part of `http.Request` the package reads. -/
structure Request where
  RequestURI : GoString
  Header : Header
deriving DecidableEq, Repr

/-! ## Header keys -/

def fidentHeaderPrefix : GoString := ascii "X-Fident"

def getFidentSignatureHeaderKey : GoString := fidentHeaderPrefix ++ ascii "-Signature"

def getFidentIdentityIDHeaderKey : GoString := fidentHeaderPrefix ++ ascii "-Identity-Id"

/-! ## `encoding/base64`: the padded URL-safe encoding -/

/-- Go `encodeURL`, the alphabet of `base64.URLEncoding`. -/
def encodeURL : GoString :=
  ascii "ABCDEFGHIJKLMNOPQRSTUVWXYZabcdefghijklmnopqrstuvwxyz0123456789-_"

/-- Go `enc.decodeMap[c]`: the position of `c` in the alphabet, `none` for the
entries the source fills with `0xff`. -/
def decodeMap (c : Nat) : Option Nat :=
  if c ∈ encodeURL then some (encodeURL.indexOf c) else none

/-- The final conversion of Go `decodeQuantum`: `dbuf` holds the `dlen` six-bit values
read, up to three bytes come out (`dlen - 1` of them); the encoding is not strict, so
the unused low bits are dropped without a check. -/
def assembleQuantum (dbuf : List Nat) : List Nat :=
  let val := (dbuf.getD 0 0 <<< 18) ||| (dbuf.getD 1 0 <<< 12) ||| (dbuf.getD 2 0 <<< 6) |||
    dbuf.getD 3 0
  [(val >>> 16) % 256, (val >>> 8) % 256, val % 256].take (dbuf.length - 1)

/-- The loop `for si < len(src) && (src[si] == 10 || src[si] == 13)` of `decodeQuantum`. -/
def skipNewlines : GoString → GoString
  | [] => []
  | c :: rest => if c = 10 ∨ c = 13 then skipNewlines rest else c :: rest

/-- Go `Encoding.Decode` for `base64.URLEncoding` (padding character `=`, not strict):
the loop over `decodeQuantum`, with `dbuf` the six-bit values of the quantum being read.
A result `none` stands for a non-nil `CorruptInputError`. -/
def decodeFrom : GoString → List Nat → Option (List Nat)
  | [], dbuf => if dbuf = [] then some [] else none
  | c :: rest, dbuf =>
    match decodeMap c with
    | some out =>
      if dbuf.length = 3 then (decodeFrom rest []).map (assembleQuantum (dbuf ++ [out]) ++ ·)
      else decodeFrom rest (dbuf ++ [out])
    | none =>
      if c = 10 ∨ c = 13 then decodeFrom rest dbuf
      else if c ≠ 61 then none
      else if dbuf.length < 2 then none
      else if dbuf.length = 2 then
        match skipNewlines rest with
        | [] => none
        | c2 :: rest2 =>
          if c2 ≠ 61 then none
          else if skipNewlines rest2 = [] then some (assembleQuantum dbuf) else none
      else if skipNewlines rest = [] then some (assembleQuantum dbuf) else none

/-- Go `base64.URLEncoding.DecodeString`; `none` when the returned error is not nil. -/
def URLEncoding.DecodeString (s : GoString) : Option (List Nat) := decodeFrom s []

/-- Go `Encoding.Encode`/`EncodeToString` over the URL-safe alphabet; `padding` is
`enc.padChar != NoPadding`, true for `base64.URLEncoding` and false for
`base64.RawURLEncoding`. -/
def encodeWith (padding : Bool) : List Nat → GoString
  | [] => []
  | [a] =>
    let val := a <<< 16
    [encodeURL.getD ((val >>> 18) % 64) 0, encodeURL.getD ((val >>> 12) % 64) 0] ++
      (if padding then [61, 61] else [])
  | [a, b] =>
    let val := (a <<< 16) ||| (b <<< 8)
    [encodeURL.getD ((val >>> 18) % 64) 0, encodeURL.getD ((val >>> 12) % 64) 0,
      encodeURL.getD ((val >>> 6) % 64) 0] ++ (if padding then [61] else [])
  | a :: b :: c :: rest =>
    let val := (a <<< 16) ||| (b <<< 8) ||| c
    [encodeURL.getD ((val >>> 18) % 64) 0, encodeURL.getD ((val >>> 12) % 64) 0,
      encodeURL.getD ((val >>> 6) % 64) 0, encodeURL.getD (val % 64) 0] ++ encodeWith padding rest

/-- Go `base64.URLEncoding.EncodeToString`. -/
def URLEncoding.EncodeToString (src : List Nat) : GoString := encodeWith true src

/-- Go `base64.RawURLEncoding.EncodeToString`: the same encoding without the trailing `=`. -/
def RawURLEncoding.EncodeToString (src : List Nat) : GoString := encodeWith false src

/-! ## The primitives of `crypto/sha256` and `crypto/rsa` -/

/-- The two library primitives `Verify` calls, for a type `PK` of RSA public keys. -/
structure Crypto (PK : Type) where
  /-- The digest `hash.Sum(nil)` of `sha256.New()` after `hash.Write(message)`. -/
  sha256 : GoString → List Nat
  /-- Whether `rsa.VerifyPKCS1v15(key, crypto.SHA256, hashed, sig)` returns a nil error. -/
  VerifyPKCS1v15 : PK → List Nat → List Nat → Bool

/-- The reading of the signature primitive under which a signature is accepted for the
digest of one message only. -/
def Crypto.bindsMessage {PK : Type} (C : Crypto PK) : Prop :=
  ∀ (key : PK) (m1 m2 : GoString) (sig : List Nat),
    C.VerifyPKCS1v15 key (C.sha256 m1) sig = true →
    C.VerifyPKCS1v15 key (C.sha256 m2) sig = true → m1 = m2

/-! ## The package -/

/-- Go `GetIdentityID`. -/
def GetIdentityID (req : Request) : GoString :=
  req.Header.Get getFidentIdentityIDHeaderKey

/-- Go `GetAuthStatus`. -/
def GetAuthStatus (req : Request) : Bool :=
  !(GetIdentityID req == [])

/-- The names `Verify` collects in `keys`, in enumeration order. -/
def selectedKeys (req : Request) : List GoString :=
  req.Header.keys.filter
    (fun k => HasPrefix k fidentHeaderPrefix && k != getFidentSignatureHeaderKey)

/-- The string `message` of `Verify` once its second loop has ended: the canonical message. -/
def canonicalMessage (req : Request) : GoString :=
  (sortStrings (selectedKeys req)).foldl
    (fun message k => message ++ (k ++ req.Header.Get k)) req.RequestURI

/-- Go `Verify`, with the package variable `fidentPublicKey` passed in (`none` is nil). -/
def Verify {PK : Type} (C : Crypto PK) (fidentPublicKey : Option PK) (req : Request) : Bool :=
  match fidentPublicKey with
  | none => false
  | some key =>
    let hashResult := C.sha256 (canonicalMessage req)
    let sigEncoded := req.Header.Get getFidentSignatureHeaderKey
    match URLEncoding.DecodeString sigEncoded with
    | none => false
    | some rawSignature => C.VerifyPKCS1v15 key hashResult rawSignature

/-! ## Key loading -/

/-- What `x509.ParsePKIXPublicKey` returns on success: an RSA key or a key of another
algorithm (DSA, ECDSA, Ed25519, ...). -/
inductive ParsedKey (PK : Type) where
  | rsa (key : PK)
  | other
deriving DecidableEq, Repr

/-- The file system and the decoders `loadFidentPublicKey` calls. -/
structure Env (PK : Type) where
  /-- Go `ioutil.ReadFile`. -/
  ReadFile : GoString → Except GoString (List Nat)
  /-- Go `pem.Decode`: the bytes of the first PEM block, `none` when the block is nil. -/
  pemDecode : List Nat → Option (List Nat)
  /-- Go `x509.ParsePKIXPublicKey`. -/
  ParsePKIXPublicKey : List Nat → Except GoString (ParsedKey PK)

/-- How a Go call ends: with a value and a nil error, with an error, or in a run-time panic. -/
inductive Outcome (α : Type) where
  | ok (a : α)
  | error (msg : GoString)
  | panicked
deriving DecidableEq, Repr

/-- Go `loadFidentPublicKey`; the unchecked type assertion `publickey.(*rsa.PublicKey)`
panics on a key that is not RSA. -/
def loadFidentPublicKey {PK : Type} (E : Env PK) (path : GoString) : Outcome PK :=
  match E.ReadFile path with
  | .error err => .error err
  | .ok data =>
    match E.pemDecode data with
    | none => .error (ascii "No Fident RSA key found")
    | some bytes =>
      match E.ParsePKIXPublicKey bytes with
      | .error _ => .error (ascii "Failed to parse public key")
      | .ok (.rsa key) => .ok key
      | .ok .other => .panicked

/-- Go `InitWithPubKeyPath`: the outcome of the call and the value of `fidentPublicKey`
after it. -/
def InitWithPubKeyPath {PK : Type} (E : Env PK) (fidentPublicKey : Option PK)
    (path : GoString) : Outcome Unit × Option PK :=
  match loadFidentPublicKey E path with
  | .ok key => (.ok (), some key)
  | .error err => (.error err, fidentPublicKey)
  | .panicked => (.panicked, fidentPublicKey)

/-- The value of `fidentPublicKey` after calling `InitWithPubKeyPath` on each path in turn. -/
def keyAfter {PK : Type} (E : Env PK) : Option PK → List GoString → Option PK
  | st, [] => st
  | st, path :: rest => keyAfter E (InitWithPubKeyPath E st path).2 rest

/-- The outcomes of calling `InitWithPubKeyPath` on each path in turn. -/
def outcomesOf {PK : Type} (E : Env PK) : Option PK → List GoString → List (Outcome Unit)
  | _, [] => []
  | st, path :: rest =>
    (InitWithPubKeyPath E st path).1 :: outcomesOf E (InitWithPubKeyPath E st path).2 rest

/-! ## The words of the specification -/

/-- The value stored in the header map under the name `k`: the first of the values of
`h[k]`, the empty string when there is none. -/
def storedValue (h : Header) (k : GoString) : GoString :=
  match h.index k with
  | some (v :: _) => v
  | _ => []

/-- The one value read from the values stored under a name: the first of them, the empty
string when there is none. -/
def firstValue (vs : List GoString) : GoString := vs.headD []

/-- The canonical message as the specification words it: the request-target followed by
`name ++ value` for each of `entries` in turn, with no delimiter. -/
def messageOf (target : GoString) (entries : List (GoString × GoString)) : GoString :=
  target ++ (entries.map (fun e => e.1 ++ e.2)).flatten

/-! ## Concrete instances used in examples -/

/-- A toy instance of the primitives: the digest is the message itself and the one
signature accepted for a digest is the digest reversed. -/
def toyCrypto : Crypto Unit where
  sha256 := fun m => m
  VerifyPKCS1v15 := fun _ hashed sig => sig == hashed.reverse

/-- An environment in which no key file can be read. -/
def unreadableEnv : Env Unit where
  ReadFile := fun _ => .error (ascii "open: no such file or directory")
  pemDecode := fun _ => none
  ParsePKIXPublicKey := fun _ => .error []

/-- The signature `toyCrypto` accepts for the canonical message of the end-to-end scenario. -/
def scenarioSignature : List Nat := (ascii "/orders/42?x=1X-Fident-Identity-Idu-9").reverse

/-- The headers of the end-to-end scenario, with `sigEncoded` in the signature header. -/
def scenarioHeaderWith (sigEncoded : GoString) : Header :=
  [(ascii "X-Fident-Identity-Id", [ascii "u-9"]), (ascii "X-Fident-Signature", [sigEncoded])]

/-- The headers of the end-to-end scenario, the signature header carrying the padded
URL-safe base64 of `scenarioSignature`. -/
def scenarioHeader : Header :=
  scenarioHeaderWith (URLEncoding.EncodeToString scenarioSignature)

/-- The request of the end-to-end scenario. -/
def scenarioRequest : Request := ⟨ascii "/orders/42?x=1", scenarioHeader⟩

/-- An environment with four key files: `rsa.pem` holds an RSA key (the key `7`), `ec.pem`
a public key of another algorithm, `garbage.pem` a PEM block that is no public key, and
`empty.pem` no PEM block; no other path can be read. -/
def keyFilesEnv : Env Nat where
  ReadFile := fun path =>
    if path = ascii "rsa.pem" then .ok [1]
    else if path = ascii "ec.pem" then .ok [2]
    else if path = ascii "garbage.pem" then .ok [3]
    else if path = ascii "empty.pem" then .ok []
    else .error (ascii "open: no such file or directory")
  pemDecode := fun data => if data = [] then none else some data
  ParsePKIXPublicKey := fun bytes =>
    if bytes = [1] then .ok (.rsa 7)
    else if bytes = [2] then .ok .other
    else .error (ascii "asn1: structure error")

/-- The request with target `/a`, the header `X-Fident-B: c` and the signature header
holding `sigValues`. -/
def collidingRequestA (sigValues : List GoString) : Request :=
  ⟨ascii "/a", [(ascii "X-Fident-B", [ascii "c"]), (ascii "X-Fident-Signature", sigValues)]⟩

/-- The request with target `/aX-Fident-Bc` and no header but the signature header
holding `sigValues`. -/
def collidingRequestB (sigValues : List GoString) : Request :=
  ⟨ascii "/aX-Fident-Bc", [(ascii "X-Fident-Signature", sigValues)]⟩

/-- The canonical message in the words of the specification: `msg` is the request-target
followed by, for each header name of the map that starts with the designated prefix and is
not the signature header name, each taken once in ascending byte-wise order, the name
immediately followed by its value, with no delimiter.  The value of a name is the one the
header map gives for it as a MIME header: the first value stored under the canonical form
of the name. -/
def IsCanonicalMessage (req : Request) (msg : GoString) : Prop :=
  ∃ names : List GoString,
    names.Pairwise (fun a b => stringLess a b = true) ∧
    (∀ k, k ∈ names ↔
      k ∈ req.Header.keys ∧ fidentHeaderPrefix <+: k ∧ k ≠ getFidentSignatureHeaderKey) ∧
    msg = messageOf req.RequestURI
      (names.map (fun k => (k, storedValue req.Header (CanonicalMIMEHeaderKey k))))

/-- URL-safe base64 in the words of the specification, "with or without padding accepted":
`value` is the URL-safe base64 of the bytes `sig`, padded or not. -/
def IsURLSafeBase64Of (value : GoString) (sig : List Nat) : Prop :=
  value = URLEncoding.EncodeToString sig ∨ value = RawURLEncoding.EncodeToString sig

/-- A request with five headers, enumerated in this order: `X-Fident-B: b`, `Accept`,
the signature header, `X-Fident-A` with the two values `a` and `z`, and `X-Fiden: n`. -/
def mixedRequest : Request :=
  ⟨ascii "/t",
    [(ascii "X-Fident-B", [ascii "b"]), (ascii "Accept", [ascii "*/*"]),
     (ascii "X-Fident-Signature",
       [URLEncoding.EncodeToString (ascii "/tX-Fident-AaX-Fident-Bb").reverse]),
     (ascii "X-Fident-A", [ascii "a", ascii "z"]), (ascii "X-Fiden", [ascii "n"])]⟩

/-- A header map holding `value` under the name `X-Fident-foo`, which is not in canonical
form (its canonical form is `X-Fident-Foo`), and the signature `toyCrypto` accepts for the
message `/uX-Fident-foo`. -/
def lowerCaseHeader (value : GoString) : Header :=
  [(ascii "X-Fident-foo", [value]),
   (ascii "X-Fident-Signature", [URLEncoding.EncodeToString (ascii "/uX-Fident-foo").reverse])]

/-- A header map holding `value` under `X-Fident-Signature` and a second header under the
name `X-Fident-signature`, whose canonical form is the signature header name. -/
def aliasedSignatureHeader (value : GoString) : Header :=
  [(ascii "X-Fident-Signature", [value]), (ascii "X-Fident-signature", [ascii "x"])]

/-! ## Properties of the library functions -/

theorem stringLess_total (a b : GoString) : stringLess b a = false ∨ stringLess a b = false := by
  induction a generalizing b with
  | nil => cases b <;> simp [stringLess]
  | cons x xs ih =>
    cases b with
    | nil => simp [stringLess]
    | cons y ys =>
      simp only [stringLess]
      rcases Nat.lt_trichotomy x y with h | h | h
      · simp [h, Nat.lt_asymm h]
      · subst h; simpa using ih ys
      · simp [h, Nat.lt_asymm h]

theorem stringLess_antisymm (a b : GoString) (h1 : stringLess b a = false)
    (h2 : stringLess a b = false) : a = b := by
  induction a generalizing b with
  | nil => cases b <;> simp_all [stringLess]
  | cons x xs ih =>
    cases b with
    | nil => simp_all [stringLess]
    | cons y ys =>
      simp only [stringLess] at h1 h2
      rcases Nat.lt_trichotomy x y with h | h | h
      · simp [h, Nat.lt_asymm h] at h1 h2
      · subst h; simp at h1 h2; rw [ih ys h1 h2]
      · simp [h, Nat.lt_asymm h] at h1 h2

theorem stringLess_trans_false (a b c : GoString) (h1 : stringLess b a = false)
    (h2 : stringLess c b = false) : stringLess c a = false := by
  induction a generalizing b c with
  | nil => cases b <;> cases c <;> simp_all [stringLess]
  | cons x xs ih =>
    cases b with
    | nil => cases c <;> simp_all [stringLess]
    | cons y ys =>
      cases c with
      | nil => simp_all [stringLess]
      | cons z zs =>
        simp only [stringLess] at h1 h2 ⊢
        by_cases hyx : y < x
        · simp [hyx] at h1
        · by_cases hxy : x < y
          · by_cases hzy : z < y
            · simp [hzy] at h2
            · have h3 : ¬ z < x := by omega
              have h4 : x < z := by omega
              simp [h3, h4]
          · have hxy2 : x = y := by omega
            subst hxy2
            simp at h1
            by_cases hzx : z < x
            · simp [hzx] at h2
            · by_cases hxz : x < z
              · simp [hzx, hxz]
              · simp [hzx, hxz] at h2 ⊢
                exact ih ys zs h1 h2

theorem stringLE_total (a b : GoString) : stringLE a b = true ∨ stringLE b a = true := by
  simpa [stringLE] using stringLess_total a b

theorem stringLE_antisymm (a b : GoString) (h1 : stringLE a b = true) (h2 : stringLE b a = true) :
    a = b := by
  simp only [stringLE, Bool.not_eq_true'] at h1 h2
  exact stringLess_antisymm a b h1 h2

theorem stringLE_trans (a b c : GoString) (h1 : stringLE a b = true)
    (h2 : stringLE b c = true) : stringLE a c = true := by
  simp only [stringLE, Bool.not_eq_true'] at h1 h2 ⊢
  exact stringLess_trans_false a b c h1 h2

theorem stringLE_isTotal : IsTotal GoString (fun a b => stringLE a b = true) :=
  ⟨stringLE_total⟩

theorem stringLE_isTrans : IsTrans GoString (fun a b => stringLE a b = true) :=
  ⟨stringLE_trans⟩

theorem stringLE_isAntisymm : IsAntisymm GoString (fun a b => stringLE a b = true) :=
  ⟨stringLE_antisymm⟩

theorem sortStrings_perm (keys : List GoString) : (sortStrings keys).Perm keys :=
  List.perm_insertionSort _ keys

theorem sortStrings_sorted (keys : List GoString) :
    (sortStrings keys).Sorted (fun a b => stringLE a b = true) :=
  haveI := stringLE_isTotal
  haveI := stringLE_isTrans
  List.sorted_insertionSort _ keys

theorem sortStrings_eq_of_perm {k1 k2 : List GoString} (h : k1.Perm k2) :
    sortStrings k1 = sortStrings k2 :=
  haveI := stringLE_isAntisymm
  List.eq_of_perm_of_sorted
    (((sortStrings_perm k1).trans h).trans (sortStrings_perm k2).symm)
    (sortStrings_sorted k1) (sortStrings_sorted k2)

theorem mem_sortStrings {keys : List GoString} {k : GoString} :
    k ∈ sortStrings keys ↔ k ∈ keys :=
  (sortStrings_perm keys).mem_iff

theorem foldl_message (get : GoString → GoString) (keys : List GoString) (start : GoString) :
    keys.foldl (fun message k => message ++ (k ++ get k)) start =
      start ++ (keys.map (fun k => k ++ get k)).flatten := by
  induction keys generalizing start with
  | nil => simp
  | cons k ks ih => simp [ih]

theorem canonicalMessage_eq (req : Request) :
    canonicalMessage req = req.RequestURI ++
      ((sortStrings (selectedKeys req)).map (fun k => k ++ req.Header.Get k)).flatten :=
  foldl_message _ _ _

theorem Get_eq_storedValue {h : Header} {k : GoString} (hk : CanonicalMIMEHeaderKey k = k) :
    h.Get k = storedValue h k := by
  simp [Header.Get, storedValue, hk]

theorem HasPrefix_iff (s p : GoString) : HasPrefix s p = true ↔ ∃ rest, s = p ++ rest := by
  induction p generalizing s with
  | nil => simp [HasPrefix]
  | cons b p ih =>
    cases s with
    | nil => simp [HasPrefix]
    | cons a s =>
      simp only [HasPrefix, Bool.and_eq_true, beq_iff_eq, ih, List.cons_append, List.cons.injEq]
      constructor
      · rintro ⟨rfl, rest, rfl⟩; exact ⟨rest, rfl, rfl⟩
      · rintro ⟨rest, rfl, rfl⟩; exact ⟨rfl, rest, rfl⟩

theorem canonical_signatureKey :
    CanonicalMIMEHeaderKey getFidentSignatureHeaderKey = getFidentSignatureHeaderKey := by
  decide

theorem canonical_identityKey :
    CanonicalMIMEHeaderKey getFidentIdentityIDHeaderKey = getFidentIdentityIDHeaderKey := by
  decide

theorem fidentHeaderPrefix_eq : fidentHeaderPrefix = [88, 45, 70, 105, 100, 101, 110, 116] := by
  decide

theorem canonical_HasPrefix (k : GoString) (h : HasPrefix k fidentHeaderPrefix = true) :
    HasPrefix (CanonicalMIMEHeaderKey k) fidentHeaderPrefix = true := by
  unfold CanonicalMIMEHeaderKey
  split
  · obtain ⟨rest, rfl⟩ := (HasPrefix_iff _ _).1 h
    rw [fidentHeaderPrefix_eq]
    simp [canonicalLoop, HasPrefix]
  · exact h

theorem signatureKey_HasPrefix : HasPrefix getFidentSignatureHeaderKey fidentHeaderPrefix = true := by
  decide

theorem Verify_iff {PK : Type} (C : Crypto PK) (fidentPublicKey : Option PK) (req : Request) :
    Verify C fidentPublicKey req = true ↔
      ∃ key rawSignature, fidentPublicKey = some key ∧
        URLEncoding.DecodeString (req.Header.Get getFidentSignatureHeaderKey) = some rawSignature ∧
        C.VerifyPKCS1v15 key (C.sha256 (canonicalMessage req)) rawSignature = true := by
  unfold Verify
  cases fidentPublicKey with
  | none => simp
  | some key =>
    cases hd : URLEncoding.DecodeString (req.Header.Get getFidentSignatureHeaderKey) with
    | none => simp [hd]
    | some sig => simp [hd]

theorem index_eq_some_iff {h : Header} (hu : h.uniqueKeys) (k : GoString) (vs : List GoString) :
    h.index k = some vs ↔ (k, vs) ∈ h := by
  unfold Header.index
  induction h with
  | nil => simp
  | cons e rest ih =>
    obtain ⟨k0, v0⟩ := e
    have hu2 : k0 ∉ Header.keys rest ∧ Header.uniqueKeys rest := by
      simpa [Header.uniqueKeys, Header.keys] using hu
    by_cases hk : k = k0
    · subst hk
      simp only [List.lookup_cons_self, Option.some.injEq, List.mem_cons, Prod.mk.injEq, true_and]
      constructor
      · intro h1; exact Or.inl h1.symm
      · rintro (h1 | h1)
        · exact h1.symm
        · exact absurd (List.mem_map_of_mem Prod.fst h1) hu2.1
    · have hb : (k == k0) = false := by simpa using hk
      simp [List.lookup_cons, hb, ih hu2.2, hk]

theorem index_eq_of_perm {h1 h2 : Header} (hp : h1.Perm h2) (hu : h1.uniqueKeys)
    (k : GoString) : h1.index k = h2.index k := by
  have hu2 : h2.uniqueKeys := by
    unfold Header.uniqueKeys Header.keys at *
    exact (hp.map Prod.fst).nodup_iff.1 hu
  apply Option.ext
  intro vs
  simp only [Option.mem_def]
  rw [index_eq_some_iff hu, index_eq_some_iff hu2]
  exact hp.mem_iff

theorem Get_eq_of_perm {h1 h2 : Header} (hp : h1.Perm h2) (hu : h1.uniqueKeys)
    (k : GoString) : h1.Get k = h2.Get k := by
  simp [Header.Get, index_eq_of_perm hp hu]

theorem canonicalMessage_congr (target : GoString) (h1 h2 : Header)
    (hk : (selectedKeys ⟨target, h1⟩).Perm (selectedKeys ⟨target, h2⟩))
    (hg : ∀ k ∈ selectedKeys ⟨target, h1⟩, h1.Get k = h2.Get k) :
    canonicalMessage ⟨target, h1⟩ = canonicalMessage ⟨target, h2⟩ := by
  rw [canonicalMessage_eq, canonicalMessage_eq, sortStrings_eq_of_perm hk]
  congr 2
  apply List.map_congr_left
  intro k hk2
  have : k ∈ selectedKeys ⟨target, h1⟩ := hk.mem_iff.2 (mem_sortStrings.1 hk2)
  simp [hg k this]

theorem Verify_congr {PK : Type} (C : Crypto PK) (st : Option PK) (r1 r2 : Request)
    (hm : canonicalMessage r1 = canonicalMessage r2)
    (hs : r1.Header.Get getFidentSignatureHeaderKey = r2.Header.Get getFidentSignatureHeaderKey) :
    Verify C st r1 = Verify C st r2 := by
  simp [Verify, hm, hs]

theorem keyAfter_none {PK : Type} (E : Env PK) (paths : List GoString)
    (h : ∀ o ∈ outcomesOf E none paths, o ≠ Outcome.ok ()) : keyAfter E none paths = none := by
  induction paths with
  | nil => rfl
  | cons p rest ih =>
    simp only [outcomesOf, List.mem_cons, forall_eq_or_imp] at h
    simp only [keyAfter]
    cases hl : loadFidentPublicKey E p with
    | ok key => simp [InitWithPubKeyPath, hl] at h
    | error err =>
      simp only [InitWithPubKeyPath, hl] at h ⊢
      exact ih h.2
    | panicked =>
      simp only [InitWithPubKeyPath, hl] at h ⊢
      exact ih h.2

theorem mem_selectedKeys (req : Request) (k : GoString) :
    k ∈ selectedKeys req ↔ k ∈ req.Header.keys ∧ HasPrefix k fidentHeaderPrefix = true ∧
      k ≠ getFidentSignatureHeaderKey := by
  simp [selectedKeys]

theorem selectedKeys_nodup (req : Request) (hu : req.Header.uniqueKeys) :
    (selectedKeys req).Nodup :=
  List.Nodup.filter _ hu

theorem sortStrings_strict (keys : List GoString) (hn : keys.Nodup) :
    (sortStrings keys).Pairwise (fun a b => stringLess a b = true) := by
  have hs := sortStrings_sorted keys
  have hn2 : (sortStrings keys).Nodup := (sortStrings_perm keys).nodup_iff.2 hn
  have := List.Pairwise.and hs hn2
  refine this.imp ?_
  intro a b hab
  rcases hab with ⟨h1, h2⟩
  by_contra hc
  apply h2
  apply stringLess_antisymm a b
  · simpa [stringLE] using h1
  · simpa using hc

/-! ## The claims -/

/-- C2: when no trusted public key is held, that is when `InitWithPubKeyPath` was never
called or no call of it has succeeded, `Verify` returns false for every request, whatever
its request-target, headers and signature, and whatever the primitives accept. -/
theorem c2_Verify_false_without_key {PK : Type} (C : Crypto PK) (E : Env PK)
    (paths : List GoString) (req : Request)
    (hfail : ∀ o ∈ outcomesOf E none paths, o ≠ Outcome.ok ()) :
    keyAfter E none paths = none ∧ Verify C (keyAfter E none paths) req = false ∧
      Verify C none req = false := by
  have h := keyAfter_none E paths hfail
  rw [h]
  exact ⟨rfl, rfl, rfl⟩

/-- Witness of C2: after two failed initialisations the scenario request, which verifies under
the key, is rejected. -/
theorem c2_Verify_false_without_key_witness :
    (∀ o ∈ outcomesOf unreadableEnv none [ascii "/etc/fident.pem", ascii "key.pem"],
        o ≠ Outcome.ok ()) ∧
      Verify toyCrypto (some ()) scenarioRequest = true ∧
      Verify toyCrypto
        (keyAfter unreadableEnv none [ascii "/etc/fident.pem", ascii "key.pem"])
        scenarioRequest = false :=
  ⟨by decide, by decide,
    (c2_Verify_false_without_key toyCrypto unreadableEnv
      [ascii "/etc/fident.pem", ascii "key.pem"] scenarioRequest (by decide)).2.1⟩

/-- C4: canonicalisation does not depend on the order in which the header map is stored or
enumerated: two requests with the same request-target whose header maps hold the same
entries, enumerated in any two orders, have the same canonical message and the same outcome
of `Verify` under every key. -/
theorem c4_enumeration_order_irrelevant {PK : Type} (C : Crypto PK)
    (fidentPublicKey : Option PK) (target : GoString) (h1 h2 : Header)
    (hperm : h1.Perm h2) (hu : h1.uniqueKeys) :
    canonicalMessage ⟨target, h1⟩ = canonicalMessage ⟨target, h2⟩ ∧
      Verify C fidentPublicKey ⟨target, h1⟩ = Verify C fidentPublicKey ⟨target, h2⟩ := by
  have hm : canonicalMessage ⟨target, h1⟩ = canonicalMessage ⟨target, h2⟩ := by
    apply canonicalMessage_congr
    · exact (hperm.map Prod.fst).filter _
    · intro k _
      exact Get_eq_of_perm hperm hu k
  exact ⟨hm, Verify_congr C fidentPublicKey _ _ hm (Get_eq_of_perm hperm hu _)⟩

/-- Witness of C4: the scenario request with its two headers enumerated in the other order. -/
theorem c4_enumeration_order_irrelevant_witness :
    scenarioHeader.Perm scenarioHeader.reverse ∧ scenarioHeader.uniqueKeys ∧
      scenarioHeader ≠ scenarioHeader.reverse ∧
      canonicalMessage ⟨ascii "/orders/42?x=1", scenarioHeader⟩ =
        canonicalMessage ⟨ascii "/orders/42?x=1", scenarioHeader.reverse⟩ ∧
      Verify toyCrypto (some ()) ⟨ascii "/orders/42?x=1", scenarioHeader.reverse⟩ = true :=
  have h := c4_enumeration_order_irrelevant toyCrypto (some ()) (ascii "/orders/42?x=1")
    scenarioHeader scenarioHeader.reverse (List.reverse_perm scenarioHeader).symm (by decide)
  ⟨(List.reverse_perm scenarioHeader).symm, by decide, by decide, h.1,
    h.2.symm.trans (by decide)⟩

theorem index_insert_ne (l1 l2 : Header) (name c : GoString) (vs : List GoString)
    (h : c ≠ name) :
    Header.index (l1 ++ (name, vs) :: l2) c = Header.index (l1 ++ l2) c := by
  unfold Header.index
  induction l1 with
  | nil =>
    have hb : (c == name) = false := by simpa using h
    simp [List.lookup_cons, hb]
  | cons e rest ih =>
    obtain ⟨k0, v0⟩ := e
    simp only [List.cons_append, List.lookup_cons, ih]

theorem index_insert_self (l1 l2 : Header) (name : GoString) (vs : List GoString)
    (h : name ∉ Header.keys l1) :
    Header.index (l1 ++ (name, vs) :: l2) name = some vs := by
  unfold Header.index
  induction l1 with
  | nil => simp
  | cons e rest ih =>
    obtain ⟨k0, v0⟩ := e
    have h2 : name ≠ k0 ∧ name ∉ Header.keys rest := by
      simpa [Header.keys] using h
    have hb : (name == k0) = false := by simpa using h2.1
    simp only [List.cons_append, List.lookup_cons, hb]
    exact ih h2.2

theorem Get_insert_HasPrefix (l1 l2 : Header) (name k : GoString) (vs : List GoString)
    (hname : HasPrefix name fidentHeaderPrefix = false)
    (hk : HasPrefix k fidentHeaderPrefix = true) :
    Header.Get (l1 ++ (name, vs) :: l2) k = Header.Get (l1 ++ l2) k := by
  have hne : CanonicalMIMEHeaderKey k ≠ name := by
    intro he
    have := canonical_HasPrefix k hk
    rw [he, hname] at this
    exact Bool.false_ne_true this
  simp [Header.Get, index_insert_ne l1 l2 name _ vs hne]

theorem toyCrypto_bindsMessage : toyCrypto.bindsMessage := by
  intro key m1 m2 sig h1 h2
  simp only [toyCrypto, beq_iff_eq] at h1 h2
  exact List.reverse_injective (h1.symm.trans h2)

/-- C5: for every request that `Verify` accepts, every request with the same headers but
a different request-target has a different canonical message, and `Verify` returns false
for it, the signature primitive accepting a given signature for the digest of one message
only. -/
theorem c5_target_change_rejected {PK : Type} (C : Crypto PK) (fidentPublicKey : Option PK)
    (req : Request) (target : GoString)
    (hbind : C.bindsMessage)
    (hacc : Verify C fidentPublicKey req = true)
    (hne : target ≠ req.RequestURI) :
    canonicalMessage ⟨target, req.Header⟩ ≠ canonicalMessage req ∧
      Verify C fidentPublicKey ⟨target, req.Header⟩ = false := by
  have hm : canonicalMessage ⟨target, req.Header⟩ ≠ canonicalMessage req := by
    rw [canonicalMessage_eq, canonicalMessage_eq]
    intro he
    exact hne (List.append_left_inj _ |>.1 he)
  refine ⟨hm, ?_⟩
  by_contra hv
  have hv2 : Verify C fidentPublicKey ⟨target, req.Header⟩ = true := by simpa using hv
  obtain ⟨key, sig, hk, hd, hs⟩ := (Verify_iff C fidentPublicKey req).1 hacc
  obtain ⟨key2, sig2, hk2, hd2, hs2⟩ := (Verify_iff C fidentPublicKey _).1 hv2
  have hkey : key2 = key := by
    rw [hk] at hk2
    exact (Option.some.inj hk2).symm
  have hsig : sig2 = sig := by
    simp only at hd2
    rw [hd] at hd2
    exact (Option.some.inj hd2).symm
  subst hkey hsig
  exact hm (hbind key2 _ _ sig2 hs2 hs)

/-- Witness of C5: the scenario request with the order number in its request-target changed. -/
theorem c5_target_change_rejected_witness :
    toyCrypto.bindsMessage ∧ Verify toyCrypto (some ()) scenarioRequest = true ∧
      canonicalMessage ⟨ascii "/orders/43?x=1", scenarioHeader⟩ ≠
        canonicalMessage scenarioRequest ∧
      Verify toyCrypto (some ()) ⟨ascii "/orders/43?x=1", scenarioHeader⟩ = false :=
  ⟨toyCrypto_bindsMessage, by decide,
    c5_target_change_rejected toyCrypto (some ()) scenarioRequest (ascii "/orders/43?x=1")
      toyCrypto_bindsMessage (by decide) (by decide)⟩

/-- C8: adding to a request a header whose name does not start with `X-Fident`, at any
place of the enumeration and with any values, leaves the canonical message unchanged and
does not change the outcome of `Verify`, for every request and every key. -/
theorem c8_unrelated_header_irrelevant {PK : Type} (C : Crypto PK)
    (fidentPublicKey : Option PK) (target : GoString) (l1 l2 : Header)
    (name : GoString) (vs : List GoString)
    (hname : HasPrefix name fidentHeaderPrefix = false) :
    canonicalMessage ⟨target, l1 ++ (name, vs) :: l2⟩ = canonicalMessage ⟨target, l1 ++ l2⟩ ∧
      Verify C fidentPublicKey ⟨target, l1 ++ (name, vs) :: l2⟩ =
        Verify C fidentPublicKey ⟨target, l1 ++ l2⟩ := by
  have hsel : selectedKeys ⟨target, l1 ++ (name, vs) :: l2⟩ = selectedKeys ⟨target, l1 ++ l2⟩ := by
    simp [selectedKeys, Header.keys, List.filter_cons, hname]
  have hm : canonicalMessage ⟨target, l1 ++ (name, vs) :: l2⟩ =
      canonicalMessage ⟨target, l1 ++ l2⟩ := by
    apply canonicalMessage_congr
    · rw [hsel]
    · intro k hk
      exact Get_insert_HasPrefix l1 l2 name k vs hname ((mem_selectedKeys _ k).1 hk).2.1
  exact ⟨hm, Verify_congr C fidentPublicKey _ _ hm
    (Get_insert_HasPrefix l1 l2 name _ vs hname signatureKey_HasPrefix)⟩

/-- Witness of C8: an `Accept` header added between the two headers of the scenario request. -/
theorem c8_unrelated_header_irrelevant_witness :
    HasPrefix (ascii "Accept") fidentHeaderPrefix = false ∧
      canonicalMessage ⟨ascii "/orders/42?x=1",
          scenarioHeader.take 1 ++ (ascii "Accept", [ascii "*/*"]) :: scenarioHeader.drop 1⟩ =
        canonicalMessage scenarioRequest ∧
      Verify toyCrypto (some ()) ⟨ascii "/orders/42?x=1",
          scenarioHeader.take 1 ++ (ascii "Accept", [ascii "*/*"]) :: scenarioHeader.drop 1⟩ =
        true :=
  have h := c8_unrelated_header_irrelevant toyCrypto (some ()) (ascii "/orders/42?x=1")
    (scenarioHeader.take 1) (scenarioHeader.drop 1) (ascii "Accept") [ascii "*/*"] (by decide)
  ⟨by decide, h.1.trans (by decide), h.2.trans (by decide)⟩

theorem Get_of_index {h : Header} {k : GoString} {vs : List GoString}
    (hi : h.index (CanonicalMIMEHeaderKey k) = some vs) : h.Get k = firstValue vs := by
  cases vs <;> simp [Header.Get, hi, firstValue]

theorem Get_replace_ne (l1 l2 : Header) (name k : GoString) (vs ws : List GoString)
    (hne : CanonicalMIMEHeaderKey k ≠ name) :
    Header.Get (l1 ++ (name, vs) :: l2) k = Header.Get (l1 ++ (name, ws) :: l2) k := by
  simp [Header.Get, index_insert_ne l1 l2 name _ _ hne]

theorem selectedKeys_replace (t1 t2 : GoString) (l1 l2 : Header) (name : GoString)
    (vs ws : List GoString) :
    selectedKeys ⟨t1, l1 ++ (name, vs) :: l2⟩ = selectedKeys ⟨t2, l1 ++ (name, ws) :: l2⟩ := by
  simp [selectedKeys, Header.keys]

theorem decodeMap_encodeURL : ∀ j < 64, decodeMap (encodeURL.getD j 0) = some j := by
  decide

theorem decodeMap_encodeURL_mod (v : Nat) : decodeMap (encodeURL.getD (v % 64) 0) = some (v % 64) :=
  decodeMap_encodeURL (v % 64) (Nat.mod_lt _ (by decide))

theorem decodeFrom_valid (c : Nat) (rest : GoString) (dbuf : List Nat) (out : Nat)
    (h : decodeMap c = some out) :
    decodeFrom (c :: rest) dbuf =
      if dbuf.length = 3 then (decodeFrom rest []).map (assembleQuantum (dbuf ++ [out]) ++ ·)
      else decodeFrom rest (dbuf ++ [out]) := by
  rw [decodeFrom, h]

theorem mem_skipNewlines {s : GoString} {c : Nat} (hc : c ∈ s) (h10 : c ≠ 10) (h13 : c ≠ 13) :
    c ∈ skipNewlines s := by
  induction s with
  | nil => simp at hc
  | cons x rest ih =>
    unfold skipNewlines
    split
    · rename_i hx
      rcases List.mem_cons.1 hc with h | h
      · subst h; rcases hx with h | h
        · exact absurd h h10
        · exact absurd h h13
      · exact ih h
    · exact hc

theorem decodeFrom_invalid_byte (s : GoString) (dbuf : List Nat) (c : Nat) (hc : c ∈ s)
    (hmap : decodeMap c = none) (h10 : c ≠ 10) (h13 : c ≠ 13) (h61 : c ≠ 61) :
    decodeFrom s dbuf = none := by
  induction s generalizing dbuf with
  | nil => simp at hc
  | cons x rest ih =>
    by_cases hx : c = x
    · subst hx
      rw [decodeFrom, hmap]
      simp [h10, h13, h61]
    · have hrest : c ∈ rest := by
        rcases List.mem_cons.1 hc with h | h
        · exact absurd h hx
        · exact h
      rw [decodeFrom]
      cases hm : decodeMap x with
      | some out =>
        simp only
        split
        · rw [ih [] hrest]; rfl
        · exact ih _ hrest
      | none =>
        simp only
        split
        · exact ih _ hrest
        · split
          · rfl
          · split
            · rfl
            · have hsk := mem_skipNewlines hrest h10 h13
              split
              · split
                · rfl
                · rename_i c2 rest2 heq
                  split
                  · rfl
                  · rename_i hc2
                    have hc2e : c2 = 61 := by simpa using hc2
                    rw [heq] at hsk
                    have hr2 : c ∈ rest2 := by
                      rcases List.mem_cons.1 hsk with h | h
                      · exact absurd (h.trans hc2e) h61
                      · exact h
                    have := mem_skipNewlines hr2 h10 h13
                    split
                    · rename_i he; rw [he] at this; simp at this
                    · rfl
              · split
                · rename_i he; rw [he] at hsk; simp at hsk
                · rfl

theorem Verify_false_of_decode {PK : Type} (C : Crypto PK) (fidentPublicKey : Option PK)
    (req : Request)
    (h : URLEncoding.DecodeString (req.Header.Get getFidentSignatureHeaderKey) = none) :
    Verify C fidentPublicKey req = false := by
  cases fidentPublicKey <;> simp [Verify, h]

/-- C10: for every request whose `X-Fident-Signature` value is not valid URL-safe base64,
`Verify` returns the boolean false under every key state; so it is in particular when the
value holds a byte that is neither of the alphabet, nor `=`, nor a line break. -/
theorem c10_malformed_signature_rejected {PK : Type} (C : Crypto PK)
    (fidentPublicKey : Option PK) (req : Request) :
    (URLEncoding.DecodeString (req.Header.Get getFidentSignatureHeaderKey) = none →
        Verify C fidentPublicKey req = false) ∧
      ((∃ c ∈ req.Header.Get getFidentSignatureHeaderKey,
          c ∉ encodeURL ∧ c ≠ 61 ∧ c ≠ 10 ∧ c ≠ 13) →
        URLEncoding.DecodeString (req.Header.Get getFidentSignatureHeaderKey) = none ∧
          Verify C fidentPublicKey req = false) := by
  refine ⟨Verify_false_of_decode C fidentPublicKey req, ?_⟩
  rintro ⟨c, hc, hal, h61, h10, h13⟩
  have hd : URLEncoding.DecodeString (req.Header.Get getFidentSignatureHeaderKey) = none :=
    decodeFrom_invalid_byte _ [] c hc (by simp [decodeMap, hal]) h10 h13 h61
  exact ⟨hd, Verify_false_of_decode C fidentPublicKey req hd⟩

theorem shiftLeft_lor (hi lo k : Nat) (h : lo < 2 ^ k) : (hi <<< k) ||| lo = hi * 2 ^ k + lo := by
  rw [Nat.shiftLeft_eq, Nat.mul_comm, ← Nat.mul_add_lt_is_or h]

theorem lor_bytes (a b c : Nat) (hb : b < 256) (hc : c < 256) :
    (a <<< 16) ||| (b <<< 8) ||| c = a * 65536 + b * 256 + c := by
  have h1 : (a <<< 16) ||| (b <<< 8) = (a * 256 + b) <<< 8 := by
    rw [shiftLeft_lor a (b <<< 8) 16 (by rw [Nat.shiftLeft_eq]; omega)]
    simp only [Nat.shiftLeft_eq]
    omega
  rw [h1, shiftLeft_lor _ c 8 (by omega)]
  omega

theorem lor_sextets (x0 x1 x2 x3 : Nat) (h1 : x1 < 64) (h2 : x2 < 64) (h3 : x3 < 64) :
    (x0 <<< 18) ||| (x1 <<< 12) ||| (x2 <<< 6) ||| x3 =
      x0 * 262144 + x1 * 4096 + x2 * 64 + x3 := by
  have e1 : (x0 <<< 18) ||| (x1 <<< 12) = (x0 * 64 + x1) <<< 12 := by
    rw [shiftLeft_lor x0 (x1 <<< 12) 18 (by rw [Nat.shiftLeft_eq]; omega)]
    simp only [Nat.shiftLeft_eq]
    omega
  have e2 : ((x0 * 64 + x1) <<< 12) ||| (x2 <<< 6) = ((x0 * 64 + x1) * 64 + x2) <<< 6 := by
    rw [shiftLeft_lor _ (x2 <<< 6) 12 (by rw [Nat.shiftLeft_eq]; omega)]
    simp only [Nat.shiftLeft_eq]
    omega
  rw [e1, e2, shiftLeft_lor _ x3 6 (by omega)]
  omega

theorem assembleQuantum_three (a b c : Nat) (ha : a < 256) (hb : b < 256) (hc : c < 256) :
    assembleQuantum [(((a <<< 16) ||| (b <<< 8) ||| c) >>> 18) % 64,
      (((a <<< 16) ||| (b <<< 8) ||| c) >>> 12) % 64,
      (((a <<< 16) ||| (b <<< 8) ||| c) >>> 6) % 64,
      ((a <<< 16) ||| (b <<< 8) ||| c) % 64] = [a, b, c] := by
  simp only [assembleQuantum, lor_bytes a b c hb hc, List.getD_cons_zero, List.getD_cons_succ,
    List.length_cons, List.length_nil]
  rw [lor_sextets _ _ _ _ (Nat.mod_lt _ (by decide)) (Nat.mod_lt _ (by decide))
    (Nat.mod_lt _ (by decide))]
  simp only [Nat.shiftRight_eq_div_pow, List.take, List.cons.injEq, and_true]
  refine ⟨?_, ?_, ?_⟩ <;> omega

theorem assembleQuantum_two (a b : Nat) (ha : a < 256) (hb : b < 256) :
    assembleQuantum [(((a <<< 16) ||| (b <<< 8)) >>> 18) % 64,
      (((a <<< 16) ||| (b <<< 8)) >>> 12) % 64,
      (((a <<< 16) ||| (b <<< 8)) >>> 6) % 64] = [a, b] := by
  have hv : (a <<< 16) ||| (b <<< 8) = a * 65536 + b * 256 := by
    have := lor_bytes a b 0 hb (by decide)
    simpa using this
  simp only [assembleQuantum, hv, List.getD_cons_zero, List.getD_cons_succ, List.getD_nil,
    List.length_cons, List.length_nil]
  rw [lor_sextets _ _ _ _ (Nat.mod_lt _ (by decide)) (Nat.mod_lt _ (by decide)) (by decide)]
  simp only [Nat.shiftRight_eq_div_pow, List.take, List.cons.injEq, and_true]
  refine ⟨?_, ?_⟩ <;> omega

theorem assembleQuantum_one (a : Nat) (ha : a < 256) :
    assembleQuantum [((a <<< 16) >>> 18) % 64, ((a <<< 16) >>> 12) % 64] = [a] := by
  simp only [assembleQuantum, List.getD_cons_zero, List.getD_cons_succ, List.getD_nil,
    List.length_cons, List.length_nil]
  rw [lor_sextets _ _ _ _ (Nat.mod_lt _ (by decide)) (by decide) (by decide)]
  simp only [Nat.shiftRight_eq_div_pow, Nat.shiftLeft_eq, List.take, List.cons.injEq, and_true]
  omega

theorem decodeFrom_sextet (v : Nat) (rest : GoString) (dbuf : List Nat) :
    decodeFrom (encodeURL.getD (v % 64) 0 :: rest) dbuf =
      if dbuf.length = 3 then
        (decodeFrom rest []).map (assembleQuantum (dbuf ++ [v % 64]) ++ ·)
      else decodeFrom rest (dbuf ++ [v % 64]) :=
  decodeFrom_valid _ rest dbuf _ (decodeMap_encodeURL_mod v)

theorem decodeFrom_raw : ∀ (sig : List Nat), sig.length % 3 ≠ 0 →
    decodeFrom (encodeWith false sig) [] = none
  | [], h => by simp at h
  | [a], _ => by
    simp only [encodeWith, decodeFrom_sextet, List.cons_append, List.nil_append,
      List.length_nil, List.length_cons, Bool.false_eq_true, if_false, List.append_nil]
    simp [decodeFrom]
  | [a, b], _ => by
    simp only [encodeWith, decodeFrom_sextet, List.cons_append, List.nil_append,
      List.length_nil, List.length_cons, Bool.false_eq_true, if_false, List.append_nil]
    simp [decodeFrom]
  | a :: b :: c :: rest, h => by
    have ih := decodeFrom_raw rest (by
      simp only [List.length_cons] at h
      omega)
    simp only [encodeWith, decodeFrom_sextet, List.cons_append, List.nil_append,
      List.length_nil, List.length_cons, ih]
    simp

theorem decodeFrom_padded : ∀ (sig : List Nat), (∀ x ∈ sig, x < 256) →
    decodeFrom (encodeWith true sig) [] = some sig
  | [], _ => by simp [encodeWith, decodeFrom]
  | [a], h => by
    have ha : a < 256 := h a (by simp)
    have h61 : decodeMap 61 = none := by decide
    simp only [encodeWith, decodeFrom_sextet, List.cons_append, List.nil_append, if_true,
      List.length_nil, List.length_cons]
    simp only [decodeFrom, h61, skipNewlines]
    simp [assembleQuantum_one a ha, skipNewlines]
  | [a, b], h => by
    have ha : a < 256 := h a (by simp)
    have hb : b < 256 := h b (by simp)
    have h61 : decodeMap 61 = none := by decide
    simp only [encodeWith, decodeFrom_sextet, List.cons_append, List.nil_append, if_true,
      List.length_nil, List.length_cons]
    simp only [decodeFrom, h61, skipNewlines]
    simp [assembleQuantum_two a b ha hb, skipNewlines]
  | a :: b :: c :: rest, h => by
    have ha : a < 256 := h a (by simp)
    have hb : b < 256 := h b (by simp)
    have hc : c < 256 := h c (by simp)
    have ih := decodeFrom_padded rest (fun x hx => h x (by simp [hx]))
    simp only [encodeWith, decodeFrom_sextet, List.cons_append, List.nil_append,
      List.length_nil, List.length_cons]
    simp [ih, assembleQuantum_three a b c ha hb hc]

theorem encodeWith_no_padding : ∀ (sig : List Nat), sig.length % 3 = 0 →
    encodeWith false sig = encodeWith true sig
  | [], _ => rfl
  | [a], h => by simp at h
  | [a, b], h => by simp at h
  | a :: b :: c :: rest, h => by
    have ih := encodeWith_no_padding rest (by
      simp only [List.length_cons] at h
      omega)
    simp [encodeWith, ih]

/-- C9, the claim refuted: the scenario request verifies with the padded URL-safe base64 of
its signature in the signature header, and the same request with the same signature encoded
without the trailing `=` is rejected. -/
theorem c9_unpadded_signature_counterexample :
    Verify toyCrypto (some ()) ⟨ascii "/orders/42?x=1",
        scenarioHeaderWith (URLEncoding.EncodeToString scenarioSignature)⟩ = true ∧
      RawURLEncoding.EncodeToString scenarioSignature ++ ascii "==" =
        URLEncoding.EncodeToString scenarioSignature ∧
      Verify toyCrypto (some ()) ⟨ascii "/orders/42?x=1",
        scenarioHeaderWith (RawURLEncoding.EncodeToString scenarioSignature)⟩ = false := by
  decide

/-- C9, amended: `Verify` takes the signature header's URL-safe base64 value in its padded
form only.  A request carrying the padded encoding of a signature verifies exactly when the
primitive accepts that signature for the digest of the canonical message; a request carrying
the encoding without padding is rejected whenever the signature's length is not a multiple
of 3, and when it is, the two encodings are the same string. -/
theorem c9_padding_required {PK : Type} (C : Crypto PK) (fidentPublicKey : Option PK)
    (req : Request) (sig : List Nat) (hbytes : ∀ x ∈ sig, x < 256) :
    (req.Header.Get getFidentSignatureHeaderKey = URLEncoding.EncodeToString sig →
        ∀ key, fidentPublicKey = some key →
          Verify C fidentPublicKey req =
            C.VerifyPKCS1v15 key (C.sha256 (canonicalMessage req)) sig) ∧
      (req.Header.Get getFidentSignatureHeaderKey = RawURLEncoding.EncodeToString sig →
        sig.length % 3 ≠ 0 → Verify C fidentPublicKey req = false) ∧
      (sig.length % 3 = 0 →
        RawURLEncoding.EncodeToString sig = URLEncoding.EncodeToString sig) := by
  refine ⟨?_, ?_, ?_⟩
  · intro hget key hkey
    subst hkey
    have hd : URLEncoding.DecodeString (URLEncoding.EncodeToString sig) = some sig :=
      decodeFrom_padded sig hbytes
    simp [Verify, hget, hd]
  · intro hget hlen
    apply Verify_false_of_decode
    rw [hget]
    exact decodeFrom_raw sig hlen
  · intro hlen
    exact encodeWith_no_padding sig hlen

/-- Witness of C9 as amended: the scenario request carrying its signature without padding. -/
theorem c9_padding_required_witness :
    (∀ x ∈ scenarioSignature, x < 256) ∧ scenarioSignature.length % 3 ≠ 0 ∧
      Header.Get (scenarioHeaderWith (RawURLEncoding.EncodeToString scenarioSignature))
        getFidentSignatureHeaderKey = RawURLEncoding.EncodeToString scenarioSignature ∧
      Verify toyCrypto (some ()) ⟨ascii "/orders/42?x=1",
        scenarioHeaderWith (RawURLEncoding.EncodeToString scenarioSignature)⟩ = false :=
  ⟨by decide, by decide, by decide,
    (c9_padding_required toyCrypto (some ()) ⟨ascii "/orders/42?x=1",
      scenarioHeaderWith (RawURLEncoding.EncodeToString scenarioSignature)⟩ scenarioSignature
      (by decide)).2.1 (by decide) (by decide)⟩

/-- Witness of C10: the scenario request with a `!` put into its signature header. -/
theorem c10_malformed_signature_rejected_witness :
    (∃ c ∈ Header.Get (scenarioHeaderWith (ascii "A!Q==")) getFidentSignatureHeaderKey,
        c ∉ encodeURL ∧ c ≠ 61 ∧ c ≠ 10 ∧ c ≠ 13) ∧
      URLEncoding.DecodeString (ascii "AQ==") = some [1] ∧
      Verify toyCrypto (some ()) ⟨ascii "/orders/42?x=1", scenarioHeaderWith (ascii "A!Q==")⟩ =
        false :=
  ⟨⟨33, by decide, by decide, by decide, by decide, by decide⟩, by decide,
    ((c10_malformed_signature_rejected toyCrypto (some ())
      ⟨ascii "/orders/42?x=1", scenarioHeaderWith (ascii "A!Q==")⟩).2
      ⟨33, by decide, by decide, by decide, by decide, by decide⟩).2⟩

theorem index_eq_none_of_not_mem {h : Header} {k : GoString} (hk : k ∉ h.keys) :
    h.index k = none := by
  unfold Header.index
  induction h with
  | nil => rfl
  | cons e rest ih =>
    obtain ⟨k0, v0⟩ := e
    have h2 : k ≠ k0 ∧ k ∉ Header.keys rest := by
      simpa [Header.keys] using hk
    have hb : (k == k0) = false := by simpa using h2.1
    simp only [List.lookup_cons, hb]
    exact ih h2.2

theorem mem_keys_of_index {h : Header} {k : GoString} {vs : List GoString}
    (hi : h.index k = some vs) : k ∈ h.keys := by
  by_contra hn
  rw [index_eq_none_of_not_mem hn] at hi
  exact Option.noConfusion hi

theorem Init_of_load_ok {PK : Type} (E : Env PK) (st : Option PK) (path : GoString) (key : PK)
    (h : loadFidentPublicKey E path = Outcome.ok key) :
    InitWithPubKeyPath E st path = (Outcome.ok (), some key) := by
  simp [InitWithPubKeyPath, h]

theorem Init_key_unchanged {PK : Type} (E : Env PK) (st : Option PK) (path : GoString)
    (h : (InitWithPubKeyPath E st path).1 ≠ Outcome.ok ()) :
    (InitWithPubKeyPath E st path).2 = st := by
  unfold InitWithPubKeyPath at h ⊢
  cases hl : loadFidentPublicKey E path with
  | ok key => simp [hl] at h
  | error err => rfl
  | panicked => rfl

/-- C11: `InitWithPubKeyPath` changes the package key on success only.  When loading
succeeds (the file is read, holds a PEM block and its payload parses as an RSA key) it
returns no error and the held key becomes the decoded key, whatever key was held before;
when the file cannot be read, holds no PEM block, or its payload does not parse as a public
key, it returns an error and the held key is what it was before the call. -/
theorem c11_init_changes_key_on_success_only {PK : Type} (E : Env PK) (st : Option PK)
    (path : GoString) :
    (∀ data bytes key, E.ReadFile path = .ok data → E.pemDecode data = some bytes →
        E.ParsePKIXPublicKey bytes = .ok (.rsa key) →
        InitWithPubKeyPath E st path = (Outcome.ok (), some key)) ∧
      (∀ err, E.ReadFile path = .error err →
        InitWithPubKeyPath E st path = (Outcome.error err, st)) ∧
      (∀ data, E.ReadFile path = .ok data → E.pemDecode data = none →
        InitWithPubKeyPath E st path = (Outcome.error (ascii "No Fident RSA key found"), st)) ∧
      (∀ data bytes err, E.ReadFile path = .ok data → E.pemDecode data = some bytes →
        E.ParsePKIXPublicKey bytes = .error err →
        InitWithPubKeyPath E st path =
          (Outcome.error (ascii "Failed to parse public key"), st)) ∧
      ((InitWithPubKeyPath E st path).1 ≠ Outcome.ok () →
        (InitWithPubKeyPath E st path).2 = st) := by
  refine ⟨?_, ?_, ?_, ?_, Init_key_unchanged E st path⟩
  · intro data bytes key h1 h2 h3
    simp [InitWithPubKeyPath, loadFidentPublicKey, h1, h2, h3]
  · intro err h1
    simp [InitWithPubKeyPath, loadFidentPublicKey, h1]
  · intro data h1 h2
    simp [InitWithPubKeyPath, loadFidentPublicKey, h1, h2]
  · intro data bytes err h1 h2 h3
    simp [InitWithPubKeyPath, loadFidentPublicKey, h1, h2, h3]

/-- Witness of C11: with the key `3` held, loading `rsa.pem` replaces it by the key `7`,
and loading a missing file, a file without PEM block or a PEM block that is no key returns
an error and leaves the key `3`. -/
theorem c11_init_changes_key_on_success_only_witness :
    InitWithPubKeyPath keyFilesEnv (some 3) (ascii "rsa.pem") = (Outcome.ok (), some 7) ∧
      InitWithPubKeyPath keyFilesEnv (some 3) (ascii "missing.pem") =
        (Outcome.error (ascii "open: no such file or directory"), some 3) ∧
      InitWithPubKeyPath keyFilesEnv (some 3) (ascii "empty.pem") =
        (Outcome.error (ascii "No Fident RSA key found"), some 3) ∧
      InitWithPubKeyPath keyFilesEnv (some 3) (ascii "garbage.pem") =
        (Outcome.error (ascii "Failed to parse public key"), some 3) :=
  ⟨(c11_init_changes_key_on_success_only keyFilesEnv (some 3) (ascii "rsa.pem")).1
      [1] [1] 7 rfl rfl rfl,
    (c11_init_changes_key_on_success_only keyFilesEnv (some 3) (ascii "missing.pem")).2.1
      _ rfl,
    (c11_init_changes_key_on_success_only keyFilesEnv (some 3) (ascii "empty.pem")).2.2.1
      [] rfl rfl,
    (c11_init_changes_key_on_success_only keyFilesEnv (some 3) (ascii "garbage.pem")).2.2.2.1
      [3] [3] (ascii "asn1: structure error") rfl rfl rfl⟩

/-- C12, the code at the failing input: when the key file holds a PEM block whose payload
parses as a public key that is not RSA, `InitWithPubKeyPath` returns nothing to its caller:
the unchecked type assertion of `loadFidentPublicKey` panics.  The held key is unchanged. -/
theorem c12_non_rsa_key_panics {PK : Type} (E : Env PK) (st : Option PK) (path : GoString)
    (data bytes : List Nat) (hread : E.ReadFile path = .ok data)
    (hpem : E.pemDecode data = some bytes)
    (hkey : E.ParsePKIXPublicKey bytes = .ok .other) :
    InitWithPubKeyPath E st path = (Outcome.panicked, st) ∧
      ∀ err, (InitWithPubKeyPath E st path).1 ≠ Outcome.error err := by
  have h : InitWithPubKeyPath E st path = (Outcome.panicked, st) := by
    simp [InitWithPubKeyPath, loadFidentPublicKey, hread, hpem, hkey]
  refine ⟨h, ?_⟩
  intro err
  rw [h]
  exact fun he => Outcome.noConfusion he

/-- Witness of C12: loading `ec.pem`, which holds a public key that is not RSA. -/
theorem c12_non_rsa_key_panics_witness :
    InitWithPubKeyPath keyFilesEnv (some 3) (ascii "ec.pem") = (Outcome.panicked, some 3) :=
  (c12_non_rsa_key_panics keyFilesEnv (some 3) (ascii "ec.pem") [2] [2]
    rfl rfl rfl).1

theorem GetIdentityID_eq_storedValue (req : Request) :
    GetIdentityID req = storedValue req.Header getFidentIdentityIDHeaderKey := by
  unfold GetIdentityID
  exact Get_eq_storedValue canonical_identityKey

theorem GetAuthStatus_iff (req : Request) :
    GetAuthStatus req = true ↔
      ∃ v rest, req.Header.index getFidentIdentityIDHeaderKey = some (v :: rest) ∧ v ≠ [] := by
  unfold GetAuthStatus
  rw [GetIdentityID_eq_storedValue]
  unfold storedValue
  cases hi : req.Header.index getFidentIdentityIDHeaderKey with
  | none => simp
  | some vs =>
    cases vs with
    | nil => simp
    | cons v rest => simp

/-- C13: for every request `GetAuthStatus` returns true if and only if the header
`X-Fident-Identity-Id` is present in the header map and its value, the first stored under
that name, is not empty; the held key is no input of it, and it returns the same for any
two requests whose header maps agree under that name, whatever their signature header,
other headers and request-target. -/
theorem c13_GetAuthStatus_iff_identity_present (req : Request) :
    (GetAuthStatus req = true ↔
      ∃ v rest, req.Header.index getFidentIdentityIDHeaderKey = some (v :: rest) ∧ v ≠ []) ∧
      (∀ other : Request,
        other.Header.index getFidentIdentityIDHeaderKey =
          req.Header.index getFidentIdentityIDHeaderKey →
        GetAuthStatus other = GetAuthStatus req) ∧
      (∀ (target : GoString) (l1 l2 : Header) (name : GoString) (vs : List GoString),
        req.Header = l1 ++ l2 → name ≠ getFidentIdentityIDHeaderKey →
        GetAuthStatus ⟨target, l1 ++ (name, vs) :: l2⟩ = GetAuthStatus req) := by
  refine ⟨GetAuthStatus_iff req, ?_, ?_⟩
  · intro other h
    simp [GetAuthStatus, GetIdentityID_eq_storedValue, storedValue, h]
  · intro target l1 l2 name vs hreq hname
    have h := index_insert_ne l1 l2 name getFidentIdentityIDHeaderKey vs (Ne.symm hname)
    simp only [GetAuthStatus, GetIdentityID_eq_storedValue, storedValue, hreq]
    rw [h]

/-- Witness of C13: the scenario request has an identity attached, and so it has with its
signature header replaced and a header `Accept` added, under another request-target. -/
theorem c13_GetAuthStatus_iff_identity_present_witness :
    GetAuthStatus scenarioRequest = true ∧
      GetAuthStatus ⟨ascii "/", scenarioHeaderWith (ascii "AAAA")⟩ = true ∧
      GetAuthStatus ⟨ascii "/",
        scenarioHeader.take 1 ++ (ascii "Accept", [ascii "*/*"]) :: scenarioHeader.drop 1⟩ =
        true :=
  ⟨(c13_GetAuthStatus_iff_identity_present scenarioRequest).1.2
      ⟨ascii "u-9", [], by decide, by decide⟩,
    ((c13_GetAuthStatus_iff_identity_present scenarioRequest).2.1
      ⟨ascii "/", scenarioHeaderWith (ascii "AAAA")⟩ (by decide)).trans (by decide),
    ((c13_GetAuthStatus_iff_identity_present scenarioRequest).2.2 (ascii "/")
      (scenarioHeader.take 1) (scenarioHeader.drop 1) (ascii "Accept") [ascii "*/*"]
      (by decide) (by decide)).trans (by decide)⟩

/-- C14: for every request `GetIdentityID` returns the value stored in the header map under
`X-Fident-Identity-Id`, the first when there are several; for every request lacking that
header `GetIdentityID` returns the empty string and `GetAuthStatus` returns false. -/
theorem c14_GetIdentityID_value (req : Request) :
    GetIdentityID req = storedValue req.Header getFidentIdentityIDHeaderKey ∧
      (∀ v rest, req.Header.index getFidentIdentityIDHeaderKey = some (v :: rest) →
        GetIdentityID req = v) ∧
      (getFidentIdentityIDHeaderKey ∉ req.Header.keys →
        GetIdentityID req = [] ∧ GetAuthStatus req = false) := by
  refine ⟨GetIdentityID_eq_storedValue req, ?_, ?_⟩
  · intro v rest h
    rw [GetIdentityID_eq_storedValue]
    simp [storedValue, h]
  · intro hn
    have hi := index_eq_none_of_not_mem hn
    have hg : GetIdentityID req = [] := by
      rw [GetIdentityID_eq_storedValue]
      simp [storedValue, hi]
    exact ⟨hg, by simp [GetAuthStatus, hg]⟩

/-- Witness of C14: the scenario request carries the identity `u-9`; a request with the
signature header alone carries none. -/
theorem c14_GetIdentityID_value_witness :
    GetIdentityID scenarioRequest = ascii "u-9" ∧
      GetIdentityID ⟨ascii "/orders/42?x=1", scenarioHeader.drop 1⟩ = [] ∧
      GetAuthStatus ⟨ascii "/orders/42?x=1", scenarioHeader.drop 1⟩ = false :=
  ⟨(c14_GetIdentityID_value scenarioRequest).2.1 (ascii "u-9") [] (by decide),
    (c14_GetIdentityID_value ⟨ascii "/orders/42?x=1", scenarioHeader.drop 1⟩).2.2
      (by decide)⟩

theorem scenarioHeaderWith_uniqueKeys (s : GoString) : Header.uniqueKeys (scenarioHeaderWith s) := by
  have h : Header.keys (scenarioHeaderWith s) =
      [ascii "X-Fident-Identity-Id", ascii "X-Fident-Signature"] := rfl
  unfold Header.uniqueKeys
  rw [h]
  decide

theorem scenarioHeaderWith_message (s : GoString) :
    canonicalMessage ⟨ascii "/orders/42?x=1", scenarioHeaderWith s⟩ =
      ascii "/orders/42?x=1X-Fident-Identity-Idu-9" := by
  rfl

theorem scenarioHeaderWith_identity (s : GoString) :
    Header.Get (scenarioHeaderWith s) getFidentIdentityIDHeaderKey = ascii "u-9" := by
  rfl

theorem scenarioHeaderWith_signature (s : GoString) :
    Header.Get (scenarioHeaderWith s) getFidentSignatureHeaderKey = s := by
  rfl

theorem Get_later_values (l1 l2 : Header) (k v : GoString) (later later2 : List GoString)
    (x : GoString) :
    Header.Get (l1 ++ (k, v :: later) :: l2) x = Header.Get (l1 ++ (k, v :: later2) :: l2) x := by
  unfold Header.Get Header.index
  generalize CanonicalMIMEHeaderKey x = c
  induction l1 with
  | nil =>
    simp only [List.nil_append, List.lookup_cons]
    cases hb : (c == k) <;> rfl
  | cons e rest ih =>
    obtain ⟨k0, v0⟩ := e
    simp only [List.cons_append, List.lookup_cons]
    cases hb : (c == k0)
    · exact ih
    · rfl

/-- C16: the canonical message takes one value per signed header, the first: changing,
adding or removing the later values stored under a name leaves the canonical message and
the outcome of `Verify` unchanged, and the value read for a name in canonical form is the
first of the values stored under it. -/
theorem c16_later_values_ignored {PK : Type} (C : Crypto PK) (fidentPublicKey : Option PK)
    (target : GoString) (l1 l2 : Header) (k v : GoString) (later later2 : List GoString) :
    canonicalMessage ⟨target, l1 ++ (k, v :: later) :: l2⟩ =
        canonicalMessage ⟨target, l1 ++ (k, v :: later2) :: l2⟩ ∧
      Verify C fidentPublicKey ⟨target, l1 ++ (k, v :: later) :: l2⟩ =
        Verify C fidentPublicKey ⟨target, l1 ++ (k, v :: later2) :: l2⟩ ∧
      (CanonicalMIMEHeaderKey k = k → k ∉ Header.keys l1 →
        Header.Get (l1 ++ (k, v :: later) :: l2) k = v) := by
  have hm : canonicalMessage ⟨target, l1 ++ (k, v :: later) :: l2⟩ =
      canonicalMessage ⟨target, l1 ++ (k, v :: later2) :: l2⟩ := by
    apply canonicalMessage_congr
    · rw [selectedKeys_replace target target l1 l2 k (v :: later) (v :: later2)]
    · intro x _
      exact Get_later_values l1 l2 k v later later2 x
  refine ⟨hm, Verify_congr C fidentPublicKey _ _ hm (Get_later_values l1 l2 k v later later2 _), ?_⟩
  intro hc hk
  have := Get_of_index (k := k) (by rw [hc]; exact index_insert_self l1 l2 k (v :: later) hk)
  simpa [firstValue] using this

/-- Witness of C16: the identity header of the scenario request with a second value. -/
theorem c16_later_values_ignored_witness :
    canonicalMessage ⟨ascii "/orders/42?x=1",
        [] ++ (ascii "X-Fident-Identity-Id", [ascii "u-9", ascii "u-10"]) ::
          scenarioHeader.drop 1⟩ = ascii "/orders/42?x=1X-Fident-Identity-Idu-9" ∧
      Verify toyCrypto (some ()) ⟨ascii "/orders/42?x=1",
        [] ++ (ascii "X-Fident-Identity-Id", [ascii "u-9", ascii "u-10"]) ::
          scenarioHeader.drop 1⟩ = true ∧
      Header.Get ([] ++ (ascii "X-Fident-Identity-Id", [ascii "u-9", ascii "u-10"]) ::
          scenarioHeader.drop 1) (ascii "X-Fident-Identity-Id") = ascii "u-9" :=
  have h := c16_later_values_ignored toyCrypto (some ()) (ascii "/orders/42?x=1") []
    (scenarioHeader.drop 1) (ascii "X-Fident-Identity-Id") (ascii "u-9") [ascii "u-10"] []
  ⟨h.1.trans (by decide), h.2.1.trans (by decide), h.2.2 (by decide) (by decide)⟩

/-- C17: the identity claim is part of the signed content: for every request for which
`GetAuthStatus` returns true, the name `X-Fident-Identity-Id` is among the names `Verify`
selects, and the canonical message holds, after the request-target, that name immediately
followed by the string `GetIdentityID` returns. -/
theorem c17_identity_is_signed (req : Request) (hauth : GetAuthStatus req = true) :
    getFidentIdentityIDHeaderKey ∈ selectedKeys req ∧
      getFidentIdentityIDHeaderKey ∈ sortStrings (selectedKeys req) ∧
      ∃ before after, canonicalMessage req =
        req.RequestURI ++ before ++ (getFidentIdentityIDHeaderKey ++ GetIdentityID req) ++
          after := by
  obtain ⟨v, rest, hi, _⟩ := (GetAuthStatus_iff req).1 hauth
  have hsel : getFidentIdentityIDHeaderKey ∈ selectedKeys req :=
    (mem_selectedKeys req _).2 ⟨mem_keys_of_index hi, by decide, by decide⟩
  have hsort := mem_sortStrings.2 hsel
  refine ⟨hsel, hsort, ?_⟩
  obtain ⟨A, B, hAB⟩ := List.append_of_mem hsort
  refine ⟨(A.map (fun k => k ++ req.Header.Get k)).flatten,
    (B.map (fun k => k ++ req.Header.Get k)).flatten, ?_⟩
  rw [canonicalMessage_eq, hAB]
  simp [GetIdentityID, List.append_assoc]

/-- Witness of C17: the identity header of the scenario request in its canonical message. -/
theorem c17_identity_is_signed_witness :
    GetAuthStatus scenarioRequest = true ∧
      getFidentIdentityIDHeaderKey ∈ selectedKeys scenarioRequest ∧
      canonicalMessage scenarioRequest =
        scenarioRequest.RequestURI ++ [] ++
          (getFidentIdentityIDHeaderKey ++ GetIdentityID scenarioRequest) ++ [] :=
  ⟨by decide, (c17_identity_is_signed scenarioRequest (by decide)).1, by decide⟩

/-- C18: canonicalisation is not injective: the request with target `/a` and header
`X-Fident-B: c` and the request with target `/aX-Fident-Bc` and no such header differ in
request-target and in the names selected, have the same canonical message, and so get the
same outcome of `Verify` under every key and every value of the signature header. -/
theorem c18_canonicalisation_not_injective {PK : Type} (C : Crypto PK)
    (fidentPublicKey : Option PK) (sigValues : List GoString) :
    (collidingRequestA sigValues).RequestURI ≠ (collidingRequestB sigValues).RequestURI ∧
      selectedKeys (collidingRequestA sigValues) = [ascii "X-Fident-B"] ∧
      selectedKeys (collidingRequestB sigValues) = [] ∧
      canonicalMessage (collidingRequestA sigValues) = ascii "/aX-Fident-Bc" ∧
      canonicalMessage (collidingRequestB sigValues) = ascii "/aX-Fident-Bc" ∧
      Verify C fidentPublicKey (collidingRequestA sigValues) =
        Verify C fidentPublicKey (collidingRequestB sigValues) := by
  have hA : canonicalMessage (collidingRequestA sigValues) = ascii "/aX-Fident-Bc" := rfl
  have hB : canonicalMessage (collidingRequestB sigValues) = ascii "/aX-Fident-Bc" := rfl
  refine ⟨?_, rfl, rfl, hA, hB, ?_⟩
  · show ascii "/a" ≠ ascii "/aX-Fident-Bc"
    decide
  · exact Verify_congr C fidentPublicKey _ _ (hA.trans hB.symm) rfl

/-- C19: a request with no `X-Fident-Signature` header is never accepted: the missing header
reads as the empty string, which decodes to zero signature bytes, and `Verify` returns false
for every key state, request-target and header set, PKCS#1 v1.5 verification rejecting the
empty signature. -/
theorem c19_missing_signature_rejected {PK : Type} (C : Crypto PK)
    (fidentPublicKey : Option PK) (req : Request)
    (hmissing : getFidentSignatureHeaderKey ∉ req.Header.keys)
    (hreject : ∀ key, C.VerifyPKCS1v15 key (C.sha256 (canonicalMessage req)) [] = false) :
    req.Header.Get getFidentSignatureHeaderKey = [] ∧
      URLEncoding.DecodeString (req.Header.Get getFidentSignatureHeaderKey) = some [] ∧
      Verify C fidentPublicKey req = false := by
  have hg : req.Header.Get getFidentSignatureHeaderKey = [] := by
    simp [Header.Get, canonical_signatureKey, index_eq_none_of_not_mem hmissing]
  have hd : URLEncoding.DecodeString (req.Header.Get getFidentSignatureHeaderKey) = some [] := by
    rw [hg]; rfl
  refine ⟨hg, hd, ?_⟩
  cases fidentPublicKey with
  | none => rfl
  | some key => simp [Verify, hd, hreject key]

/-- Witness of C19: the scenario request without its signature header. -/
theorem c19_missing_signature_rejected_witness :
    getFidentSignatureHeaderKey ∉ Header.keys (scenarioHeader.take 1) ∧
      Verify toyCrypto (some ()) ⟨ascii "/orders/42?x=1", scenarioHeader.take 1⟩ = false :=
  ⟨by decide,
    (c19_missing_signature_rejected toyCrypto (some ())
      ⟨ascii "/orders/42?x=1", scenarioHeader.take 1⟩ (by decide)
      (fun _ => rfl)).2.2⟩

theorem HasPrefix_iff_isPrefix (s p : GoString) : HasPrefix s p = true ↔ p <+: s := by
  rw [HasPrefix_iff]
  constructor
  · rintro ⟨rest, rfl⟩; exact ⟨rest, rfl⟩
  · rintro ⟨rest, h⟩; exact ⟨rest, h.symm⟩

theorem stringLess_asymm {a b : GoString} (h : stringLess a b = true) :
    stringLess b a = false := by
  rcases stringLess_total a b with h1 | h1
  · exact h1
  · rw [h] at h1; exact absurd h1 (by decide)

theorem strictAscending_ext {l1 l2 : List GoString}
    (h1 : l1.Pairwise (fun a b => stringLess a b = true))
    (h2 : l2.Pairwise (fun a b => stringLess a b = true))
    (hm : ∀ k, k ∈ l1 ↔ k ∈ l2) : l1 = l2 := by
  have nd : ∀ l : List GoString, l.Pairwise (fun a b => stringLess a b = true) → l.Nodup := by
    intro l hl
    refine hl.imp ?_
    intro a b hab he
    subst he
    have := stringLess_asymm hab
    rw [hab] at this
    exact absurd this (by decide)
  have so : ∀ l : List GoString, l.Pairwise (fun a b => stringLess a b = true) →
      l.Sorted (fun a b => stringLE a b = true) := by
    intro l hl
    refine hl.imp ?_
    intro a b hab
    simp [stringLE, stringLess_asymm hab]
  haveI := stringLE_isAntisymm
  exact List.eq_of_perm_of_sorted ((List.perm_ext_iff_of_nodup (nd l1 h1) (nd l2 h2)).2 hm)
    (so l1 h1) (so l2 h2)

theorem canonicalMessage_isCanonical (req : Request) (hu : req.Header.uniqueKeys) :
    IsCanonicalMessage req (canonicalMessage req) := by
  refine ⟨sortStrings (selectedKeys req), sortStrings_strict _ (selectedKeys_nodup req hu), ?_, ?_⟩
  · intro k
    rw [mem_sortStrings, mem_selectedKeys, HasPrefix_iff_isPrefix]
  · rw [canonicalMessage_eq, messageOf, List.map_map]
    rfl

theorem isCanonicalMessage_unique (req : Request) (hu : req.Header.uniqueKeys) (msg : GoString)
    (h : IsCanonicalMessage req msg) : msg = canonicalMessage req := by
  obtain ⟨names, hsorted, hmem, hmsg⟩ := h
  obtain ⟨names2, hsorted2, hmem2, hmsg2⟩ := canonicalMessage_isCanonical req hu
  have : names = names2 :=
    strictAscending_ext hsorted hsorted2 (fun k => (hmem k).trans (hmem2 k).symm)
  rw [hmsg, hmsg2, this]

/-- C3, the claim refuted: for the header map holding `3` under the name `X-Fident-foo`
the canonical message is `/uX-Fident-foo`; the name is not followed by the value stored in
the map under it. -/
theorem c3_stored_value_counterexample :
    Header.uniqueKeys (lowerCaseHeader (ascii "3")) ∧
      selectedKeys ⟨ascii "/u", lowerCaseHeader (ascii "3")⟩ = [ascii "X-Fident-foo"] ∧
      storedValue (lowerCaseHeader (ascii "3")) (ascii "X-Fident-foo") = ascii "3" ∧
      canonicalMessage ⟨ascii "/u", lowerCaseHeader (ascii "3")⟩ = ascii "/uX-Fident-foo" ∧
      canonicalMessage ⟨ascii "/u", lowerCaseHeader (ascii "3")⟩ ≠
        messageOf (ascii "/u")
          [(ascii "X-Fident-foo",
            storedValue (lowerCaseHeader (ascii "3")) (ascii "X-Fident-foo"))] := by
  decide

/-- C3, amended: for every request the canonical message `Verify` hashes is the
request-target followed by, for each header name of the header map that starts with
`X-Fident` and is not `X-Fident-Signature`, each once in ascending byte-wise order of name,
the name immediately followed by the value `Header.Get` reads for it, which is the first
value stored under the canonical MIME form of the name, with no delimiter and nothing else
appended; no other string is so built from the request; and when every name of the map is
in canonical form, the value after a name is the value stored in the map under that name. -/
theorem c3_canonicalMessage_layout (req : Request) (hu : req.Header.uniqueKeys) :
    IsCanonicalMessage req (canonicalMessage req) ∧
      (∀ msg, IsCanonicalMessage req msg → msg = canonicalMessage req) ∧
      (req.Header.canonicalKeys →
        ∃ names : List GoString,
          names.Pairwise (fun a b => stringLess a b = true) ∧
          (∀ k, k ∈ names ↔
            k ∈ req.Header.keys ∧ fidentHeaderPrefix <+: k ∧
              k ≠ getFidentSignatureHeaderKey) ∧
          canonicalMessage req =
            messageOf req.RequestURI (names.map (fun k => (k, storedValue req.Header k)))) := by
  refine ⟨canonicalMessage_isCanonical req hu, isCanonicalMessage_unique req hu, ?_⟩
  intro hc
  obtain ⟨names, hsorted, hmem, hmsg⟩ := canonicalMessage_isCanonical req hu
  refine ⟨names, hsorted, hmem, ?_⟩
  rw [hmsg]
  congr 1
  apply List.map_congr_left
  intro k hk
  rw [hc k ((hmem k).1 hk).1]

/-- Witness of C3 as amended: of the five headers of `mixedRequest` the two named
`X-Fident-A` and `X-Fident-B` are taken, in that order, each with its first value. -/
theorem c3_canonicalMessage_layout_witness :
    mixedRequest.Header.uniqueKeys ∧
      selectedKeys mixedRequest = [ascii "X-Fident-B", ascii "X-Fident-A"] ∧
      canonicalMessage mixedRequest = ascii "/tX-Fident-AaX-Fident-Bb" ∧
      ascii "/tX-Fident-AaX-Fident-Bb" =
        messageOf (ascii "/t")
          [(ascii "X-Fident-A", ascii "a"), (ascii "X-Fident-B", ascii "b")] ∧
      IsCanonicalMessage mixedRequest (ascii "/tX-Fident-AaX-Fident-Bb") :=
  have hmsg : canonicalMessage mixedRequest = ascii "/tX-Fident-AaX-Fident-Bb" :=
    ((c3_canonicalMessage_layout mixedRequest (by decide)).2.1 _
      ⟨[ascii "X-Fident-A", ascii "X-Fident-B"], by decide,
        fun k => ⟨fun h => by
            rcases List.mem_cons.1 h with h | h
            · subst h; decide
            · rcases List.mem_cons.1 h with h | h
              · subst h; decide
              · exact absurd h (List.not_mem_nil _),
          fun h => by
            have hk : k ∈ [ascii "X-Fident-B", ascii "Accept", ascii "X-Fident-Signature",
                ascii "X-Fident-A", ascii "X-Fiden"] := h.1
            simp only [List.mem_cons, List.mem_nil_iff, or_false] at hk
            rcases hk with hk | hk | hk | hk | hk
            · subst hk; decide
            · subst hk; exact absurd h.2.1 (by decide)
            · subst hk; exact absurd rfl h.2.2
            · subst hk; decide
            · subst hk; exact absurd h.2.1 (by decide)⟩,
        by decide⟩).symm
  ⟨by decide, by decide, hmsg, by decide,
    hmsg ▸ (c3_canonicalMessage_layout mixedRequest (by decide)).1⟩

/-- C1, the claim refuted: in the scenario a key is held, the signature header carries the
URL-safe base64 (without padding) of a signature, and the primitive accepts that signature
for the digest of the canonical message, yet `Verify` returns false. -/
theorem c1_unpadded_signature_counterexample :
    IsURLSafeBase64Of
        (storedValue (scenarioHeaderWith (RawURLEncoding.EncodeToString scenarioSignature))
          getFidentSignatureHeaderKey) scenarioSignature ∧
      canonicalMessage ⟨ascii "/orders/42?x=1",
          scenarioHeaderWith (RawURLEncoding.EncodeToString scenarioSignature)⟩ =
        ascii "/orders/42?x=1X-Fident-Identity-Idu-9" ∧
      toyCrypto.VerifyPKCS1v15 ()
        (toyCrypto.sha256 (ascii "/orders/42?x=1X-Fident-Identity-Idu-9"))
        scenarioSignature = true ∧
      Verify toyCrypto (some ()) ⟨ascii "/orders/42?x=1",
        scenarioHeaderWith (RawURLEncoding.EncodeToString scenarioSignature)⟩ = false :=
  ⟨Or.inr (by decide), by decide, by decide, by decide⟩

/-- C1, amended: for every request and every key state `Verify` returns true if and only if
a trusted public key is held, the value of the `X-Fident-Signature` header decodes under the
padded URL-safe base64 of `base64.URLEncoding`, and PKCS#1 v1.5 verification of the decoded
bytes against the SHA-256 digest of the request's canonical message succeeds under the held
key; in every other case it returns false.  That decoding gives back the bytes of every
signature from its padded encoding, and rejects the encoding without padding of a signature
whose length is not a multiple of 3. -/
theorem c1_Verify_true_iff {PK : Type} (C : Crypto PK) (fidentPublicKey : Option PK)
    (req : Request) (hu : req.Header.uniqueKeys) :
    (Verify C fidentPublicKey req = true ↔
      ∃ key rawSignature msg, fidentPublicKey = some key ∧
        URLEncoding.DecodeString (storedValue req.Header getFidentSignatureHeaderKey) =
          some rawSignature ∧
        IsCanonicalMessage req msg ∧
        C.VerifyPKCS1v15 key (C.sha256 msg) rawSignature = true) ∧
    (Verify C fidentPublicKey req = false ↔
      ¬ ∃ key rawSignature msg, fidentPublicKey = some key ∧
        URLEncoding.DecodeString (storedValue req.Header getFidentSignatureHeaderKey) =
          some rawSignature ∧
        IsCanonicalMessage req msg ∧
        C.VerifyPKCS1v15 key (C.sha256 msg) rawSignature = true) ∧
    (∀ sig : List Nat, (∀ x ∈ sig, x < 256) →
      storedValue req.Header getFidentSignatureHeaderKey = URLEncoding.EncodeToString sig →
      URLEncoding.DecodeString (storedValue req.Header getFidentSignatureHeaderKey) =
        some sig) ∧
    (∀ sig : List Nat, sig.length % 3 ≠ 0 →
      storedValue req.Header getFidentSignatureHeaderKey = RawURLEncoding.EncodeToString sig →
      URLEncoding.DecodeString (storedValue req.Header getFidentSignatureHeaderKey) = none ∧
        Verify C fidentPublicKey req = false) := by
  have hget : req.Header.Get getFidentSignatureHeaderKey =
      storedValue req.Header getFidentSignatureHeaderKey :=
    Get_eq_storedValue canonical_signatureKey
  have hiff : Verify C fidentPublicKey req = true ↔
      ∃ key rawSignature msg, fidentPublicKey = some key ∧
        URLEncoding.DecodeString (storedValue req.Header getFidentSignatureHeaderKey) =
          some rawSignature ∧
        IsCanonicalMessage req msg ∧
        C.VerifyPKCS1v15 key (C.sha256 msg) rawSignature = true := by
    rw [Verify_iff, hget]
    constructor
    · rintro ⟨key, sig, hk, hd, hv⟩
      exact ⟨key, sig, canonicalMessage req, hk, hd, canonicalMessage_isCanonical req hu, hv⟩
    · rintro ⟨key, sig, msg, hk, hd, hmsg, hv⟩
      rw [isCanonicalMessage_unique req hu msg hmsg] at hv
      exact ⟨key, sig, hk, hd, hv⟩
  refine ⟨hiff, ?_, ?_, ?_⟩
  · rw [← hiff]
    simp
  · intro sig hbytes hval
    rw [hval]
    exact decodeFrom_padded sig hbytes
  · intro sig hlen hval
    have hd : URLEncoding.DecodeString (storedValue req.Header getFidentSignatureHeaderKey) =
        none := by
      rw [hval]
      exact decodeFrom_raw sig hlen
    refine ⟨hd, Verify_false_of_decode C fidentPublicKey req ?_⟩
    rw [hget]
    exact hd

/-- Witness of C1 as amended: `mixedRequest` verifies, its signature header carrying the
padded encoding of the signature accepted for `/tX-Fident-AaX-Fident-Bb`. -/
theorem c1_Verify_true_iff_witness :
    mixedRequest.Header.uniqueKeys ∧
      canonicalMessage mixedRequest = ascii "/tX-Fident-AaX-Fident-Bb" ∧
      URLEncoding.DecodeString (storedValue mixedRequest.Header getFidentSignatureHeaderKey) =
        some (ascii "/tX-Fident-AaX-Fident-Bb").reverse ∧
      Verify toyCrypto (some ()) mixedRequest = true :=
  have hmsg : canonicalMessage mixedRequest = ascii "/tX-Fident-AaX-Fident-Bb" := by decide
  ⟨by decide, hmsg,
    (c1_Verify_true_iff toyCrypto (some ()) mixedRequest (by decide)).2.2.1
      (ascii "/tX-Fident-AaX-Fident-Bb").reverse (by decide) (by decide),
    (c1_Verify_true_iff toyCrypto (some ()) mixedRequest (by decide)).1.2
      ⟨(), (ascii "/tX-Fident-AaX-Fident-Bb").reverse, ascii "/tX-Fident-AaX-Fident-Bb",
        rfl, by decide, hmsg ▸ canonicalMessage_isCanonical mixedRequest (by decide),
        by decide⟩⟩

theorem Get_insert_cases (l1 l2 : Header) (k : GoString) (vs : List GoString) (x : GoString)
    (hk : k ∉ Header.keys l1) :
    Header.Get (l1 ++ (k, vs) :: l2) x =
      if (CanonicalMIMEHeaderKey x == k) = true then firstValue vs
      else Header.Get (l1 ++ l2) x := by
  split
  · rename_i hx
    have hx2 : CanonicalMIMEHeaderKey x = k := by simpa using hx
    exact Get_of_index (by rw [hx2]; exact index_insert_self l1 l2 k vs hk)
  · rename_i hx
    have hx2 : CanonicalMIMEHeaderKey x ≠ k := by simpa using hx
    simp [Header.Get, index_insert_ne l1 l2 k _ vs hx2]

theorem flatten_subst_length (S : List GoString) (p : GoString → Bool)
    (g : GoString → GoString) (v w : GoString) :
    ((S.map (fun x => x ++ (if p x = true then v else g x))).flatten).length +
        S.countP p * w.length =
      ((S.map (fun x => x ++ (if p x = true then w else g x))).flatten).length +
        S.countP p * v.length := by
  induction S with
  | nil => simp
  | cons x rest ih =>
    simp only [List.map_cons, List.flatten_cons, List.length_append, List.countP_cons]
    cases hp : p x
    · simp only [Bool.false_eq_true, if_false, Nat.add_zero]
      omega
    · simp only [if_true, Nat.add_mul, Nat.one_mul]
      omega

theorem flatten_subst_inj (S : List GoString) (p : GoString → Bool)
    (g : GoString → GoString) (v w : GoString) (hlen : v.length = w.length)
    (hex : ∃ x ∈ S, p x = true)
    (heq : (S.map (fun x => x ++ (if p x = true then v else g x))).flatten =
      (S.map (fun x => x ++ (if p x = true then w else g x))).flatten) : v = w := by
  induction S with
  | nil =>
    obtain ⟨x, hx, _⟩ := hex
    exact absurd hx (List.not_mem_nil _)
  | cons x rest ih =>
    simp only [List.map_cons, List.flatten_cons] at heq
    cases hp : p x
    · simp only [hp, Bool.false_eq_true, if_false] at heq
      apply ih
      · obtain ⟨y, hy, hpy⟩ := hex
        rcases List.mem_cons.1 hy with h | h
        · subst h; rw [hp] at hpy; exact absurd hpy (by decide)
        · exact ⟨y, h, hpy⟩
      · exact List.append_cancel_left heq
    · simp only [hp, if_true, List.append_assoc] at heq
      exact (List.append_inj (List.append_cancel_left heq) hlen).1

theorem canonicalMessage_changed (target : GoString) (l1 l2 : Header) (k : GoString)
    (vs ws : List GoString)
    (hck : CanonicalMIMEHeaderKey k = k) (hk : k ∉ Header.keys l1)
    (hpre : HasPrefix k fidentHeaderPrefix = true) (hns : k ≠ getFidentSignatureHeaderKey)
    (hval : firstValue ws ≠ firstValue vs) :
    canonicalMessage ⟨target, l1 ++ (k, ws) :: l2⟩ ≠
      canonicalMessage ⟨target, l1 ++ (k, vs) :: l2⟩ := by
  intro he
  rw [canonicalMessage_eq, canonicalMessage_eq,
    selectedKeys_replace target target l1 l2 k ws vs] at he
  have he2 := List.append_cancel_left he
  have hfun : ∀ us : List GoString,
      (fun x => x ++ Header.Get (l1 ++ (k, us) :: l2) x) =
        (fun x => x ++ (if (CanonicalMIMEHeaderKey x == k) = true then firstValue us
          else Header.Get (l1 ++ l2) x)) := by
    intro us
    funext x
    rw [Get_insert_cases l1 l2 k us x hk]
  simp only [hfun] at he2
  have hmem : k ∈ sortStrings (selectedKeys ⟨target, l1 ++ (k, vs) :: l2⟩) :=
    mem_sortStrings.2 ((mem_selectedKeys _ k).2 ⟨by simp [Header.keys], hpre, hns⟩)
  have hex : ∃ x ∈ sortStrings (selectedKeys ⟨target, l1 ++ (k, vs) :: l2⟩),
      (CanonicalMIMEHeaderKey x == k) = true := ⟨k, hmem, by simp [hck]⟩
  have hcount : 0 < (sortStrings (selectedKeys ⟨target, l1 ++ (k, vs) :: l2⟩)).countP
      (fun x => CanonicalMIMEHeaderKey x == k) := by
    rw [List.countP_pos_iff]
    exact hex
  have hl := flatten_subst_length (sortStrings (selectedKeys ⟨target, l1 ++ (k, vs) :: l2⟩))
    (fun x => CanonicalMIMEHeaderKey x == k) (fun x => Header.Get (l1 ++ l2) x)
    (firstValue ws) (firstValue vs)
  have hlen2 := congrArg List.length he2
  simp only at hl
  rw [hlen2] at hl
  have hmul : (sortStrings (selectedKeys ⟨target, l1 ++ (k, vs) :: l2⟩)).countP
        (fun x => CanonicalMIMEHeaderKey x == k) * (firstValue vs).length =
      (sortStrings (selectedKeys ⟨target, l1 ++ (k, vs) :: l2⟩)).countP
        (fun x => CanonicalMIMEHeaderKey x == k) * (firstValue ws).length :=
    Nat.add_left_cancel hl
  have hlen : (firstValue ws).length = (firstValue vs).length :=
    (Nat.eq_of_mul_eq_mul_left hcount hmul).symm
  exact hval (flatten_subst_inj _ _ _ _ _ hlen hex he2)

/-- C6, the claim refuted: the request holding `2` under the name `X-Fident-foo` verifies,
and so does, without signing again, the request holding `3` under that name: the canonical
message is the same. -/
theorem c6_lower_case_name_counterexample :
    toyCrypto.bindsMessage ∧
      Header.uniqueKeys (lowerCaseHeader (ascii "2")) ∧
      HasPrefix (ascii "X-Fident-foo") fidentHeaderPrefix = true ∧
      ascii "X-Fident-foo" ≠ getFidentSignatureHeaderKey ∧
      storedValue (lowerCaseHeader (ascii "2")) (ascii "X-Fident-foo") = ascii "2" ∧
      storedValue (lowerCaseHeader (ascii "3")) (ascii "X-Fident-foo") = ascii "3" ∧
      Verify toyCrypto (some ()) ⟨ascii "/u", lowerCaseHeader (ascii "2")⟩ = true ∧
      canonicalMessage ⟨ascii "/u", lowerCaseHeader (ascii "3")⟩ =
        canonicalMessage ⟨ascii "/u", lowerCaseHeader (ascii "2")⟩ ∧
      Verify toyCrypto (some ()) ⟨ascii "/u", lowerCaseHeader (ascii "3")⟩ = true :=
  ⟨toyCrypto_bindsMessage, by decide, by decide, by decide, by decide, by decide, by decide,
    by decide, by decide⟩

/-- C6, amended: for every request that `Verify` accepts, changing the value of a header
whose name starts with `X-Fident`, is not `X-Fident-Signature` and is in canonical MIME form
(as is every name of a request parsed by `net/http`), the request-target and all other
headers held fixed, changes the canonical message and makes `Verify` return false, the
signature primitive accepting a given signature for the digest of one message only.  The
value of a header is the first of the values stored under its name. -/
theorem c6_header_value_change_rejected {PK : Type} (C : Crypto PK)
    (fidentPublicKey : Option PK) (target : GoString) (l1 l2 : Header) (k : GoString)
    (vs ws : List GoString)
    (hbind : C.bindsMessage)
    (hentry : k ∉ Header.keys l1)
    (hcanon : CanonicalMIMEHeaderKey k = k)
    (hpre : HasPrefix k fidentHeaderPrefix = true)
    (hns : k ≠ getFidentSignatureHeaderKey)
    (hval : firstValue ws ≠ firstValue vs)
    (hacc : Verify C fidentPublicKey ⟨target, l1 ++ (k, vs) :: l2⟩ = true) :
    canonicalMessage ⟨target, l1 ++ (k, ws) :: l2⟩ ≠
        canonicalMessage ⟨target, l1 ++ (k, vs) :: l2⟩ ∧
      Verify C fidentPublicKey ⟨target, l1 ++ (k, ws) :: l2⟩ = false := by
  have hm := canonicalMessage_changed target l1 l2 k vs ws hcanon hentry hpre hns hval
  refine ⟨hm, ?_⟩
  by_contra hv
  have hv2 : Verify C fidentPublicKey ⟨target, l1 ++ (k, ws) :: l2⟩ = true := by simpa using hv
  obtain ⟨key, sig, hk1, hd, hs⟩ := (Verify_iff C fidentPublicKey _).1 hacc
  obtain ⟨key2, sig2, hk2, hd2, hs2⟩ := (Verify_iff C fidentPublicKey _).1 hv2
  have hkey : key2 = key := by
    rw [hk1] at hk2
    exact (Option.some.inj hk2).symm
  have hsig : sig2 = sig := by
    have hne : CanonicalMIMEHeaderKey getFidentSignatureHeaderKey ≠ k := by
      rw [canonical_signatureKey]; exact fun he => hns he.symm
    simp only at hd hd2
    rw [Get_replace_ne l1 l2 k _ ws vs hne, hd] at hd2
    exact (Option.some.inj hd2).symm
  subst hkey hsig
  exact hm (hbind key2 _ _ sig2 hs2 hs)

/-- Witness of C6 as amended: the identity header of the scenario request changed from
`u-9` to `u-10` without signing again. -/
theorem c6_header_value_change_rejected_witness :
    ([] ++ (ascii "X-Fident-Identity-Id", [ascii "u-9"]) :: scenarioHeader.drop 1 =
        scenarioHeader) ∧
      CanonicalMIMEHeaderKey (ascii "X-Fident-Identity-Id") = ascii "X-Fident-Identity-Id" ∧
      Verify toyCrypto (some ()) scenarioRequest = true ∧
      canonicalMessage ⟨ascii "/orders/42?x=1",
          [] ++ (ascii "X-Fident-Identity-Id", [ascii "u-10"]) :: scenarioHeader.drop 1⟩ ≠
        canonicalMessage ⟨ascii "/orders/42?x=1",
          [] ++ (ascii "X-Fident-Identity-Id", [ascii "u-9"]) :: scenarioHeader.drop 1⟩ ∧
      Verify toyCrypto (some ()) ⟨ascii "/orders/42?x=1",
          [] ++ (ascii "X-Fident-Identity-Id", [ascii "u-10"]) :: scenarioHeader.drop 1⟩ =
        false :=
  ⟨by decide, by decide, by decide,
    c6_header_value_change_rejected toyCrypto (some ()) (ascii "/orders/42?x=1") []
      (scenarioHeader.drop 1) (ascii "X-Fident-Identity-Id") [ascii "u-9"] [ascii "u-10"]
      toyCrypto_bindsMessage (by decide) (by decide) (by decide) (by decide) (by decide)
      (by decide)⟩

/-- C7, the claim refuted: two requests that differ only in the value of the
`X-Fident-Signature` header and hold a second header named `X-Fident-signature` have
different canonical messages: the signature value is read into the message under that
second name. -/
theorem c7_aliased_signature_counterexample :
    Header.uniqueKeys (aliasedSignatureHeader (ascii "AAAA")) ∧
      canonicalMessage ⟨ascii "/u", aliasedSignatureHeader (ascii "AAAA")⟩ =
        ascii "/uX-Fident-signatureAAAA" ∧
      canonicalMessage ⟨ascii "/u", aliasedSignatureHeader (ascii "BBBB")⟩ =
        ascii "/uX-Fident-signatureBBBB" ∧
      canonicalMessage ⟨ascii "/u", aliasedSignatureHeader (ascii "AAAA")⟩ ≠
        canonicalMessage ⟨ascii "/u", aliasedSignatureHeader (ascii "BBBB")⟩ := by
  decide

/-- C7, amended: the signature header does not contribute to the canonical message when no
other header name of the map has `X-Fident-Signature` as its canonical MIME form (so it is
when the names are in canonical form, as in every request parsed by `net/http`): two such
requests that differ only in the values carried by the `X-Fident-Signature` header have the
same canonical message, which is also that of the request without that header. -/
theorem c7_signature_value_irrelevant (target : GoString) (l1 l2 : Header)
    (vs ws : List GoString)
    (hother : ∀ x ∈ Header.keys (l1 ++ l2),
      CanonicalMIMEHeaderKey x = getFidentSignatureHeaderKey →
        x = getFidentSignatureHeaderKey) :
    canonicalMessage ⟨target, l1 ++ (getFidentSignatureHeaderKey, vs) :: l2⟩ =
        canonicalMessage ⟨target, l1 ++ (getFidentSignatureHeaderKey, ws) :: l2⟩ ∧
      canonicalMessage ⟨target, l1 ++ (getFidentSignatureHeaderKey, vs) :: l2⟩ =
        canonicalMessage ⟨target, l1 ++ l2⟩ := by
  have hne : ∀ x ∈ selectedKeys ⟨target, l1 ++ (getFidentSignatureHeaderKey, vs) :: l2⟩,
      CanonicalMIMEHeaderKey x ≠ getFidentSignatureHeaderKey := by
    intro x hx hcx
    have hx2 := (mem_selectedKeys _ x).1 hx
    have hx3 : x ∈ Header.keys (l1 ++ l2) := by
      have h1 : x ∈ Header.keys l1 ∨ x = getFidentSignatureHeaderKey ∨ x ∈ Header.keys l2 := by
        simpa [Header.keys] using hx2.1
      rcases h1 with h | h | h
      · simp [Header.keys] at h ⊢
        exact Or.inl h
      · exact absurd h hx2.2.2
      · simp [Header.keys] at h ⊢
        exact Or.inr h
    exact hx2.2.2 (hother x hx3 hcx)
  constructor
  · apply canonicalMessage_congr
    · rw [selectedKeys_replace target target l1 l2 _ vs ws]
    · intro x hx
      exact Get_replace_ne l1 l2 _ x vs ws (hne x hx)
  · apply canonicalMessage_congr
    · have : selectedKeys ⟨target, l1 ++ (getFidentSignatureHeaderKey, vs) :: l2⟩ =
          selectedKeys ⟨target, l1 ++ l2⟩ := by
        simp [selectedKeys, Header.keys, List.filter_cons]
      rw [this]
    · intro x hx
      simp [Header.Get, index_insert_ne l1 l2 _ _ vs (hne x hx)]

/-- Witness of C7 as amended: `mixedRequest` with another value in its signature header. -/
theorem c7_signature_value_irrelevant_witness :
    (mixedRequest.Header.take 2 ++ (getFidentSignatureHeaderKey,
        [URLEncoding.EncodeToString (ascii "/tX-Fident-AaX-Fident-Bb").reverse]) ::
        mixedRequest.Header.drop 3 = mixedRequest.Header) ∧
      canonicalMessage ⟨ascii "/t", mixedRequest.Header.take 2 ++
          (getFidentSignatureHeaderKey, [ascii "AAAA"]) :: mixedRequest.Header.drop 3⟩ =
        ascii "/tX-Fident-AaX-Fident-Bb" ∧
      canonicalMessage ⟨ascii "/t", mixedRequest.Header.take 2 ++
          mixedRequest.Header.drop 3⟩ = ascii "/tX-Fident-AaX-Fident-Bb" :=
  have h := c7_signature_value_irrelevant (ascii "/t") (mixedRequest.Header.take 2)
    (mixedRequest.Header.drop 3)
    [URLEncoding.EncodeToString (ascii "/tX-Fident-AaX-Fident-Bb").reverse] [ascii "AAAA"]
    (by decide)
  ⟨by decide, h.1.symm.trans (by decide), h.2.symm.trans (by decide)⟩

/-- C15, the claim refuted: in the scenario, with exactly the two headers and the signature
header carrying the URL-safe base64 without padding of a signature the primitive accepts for
the digest of `/orders/42?x=1X-Fident-Identity-Idu-9` under the held key, `Verify` returns
false. -/
theorem c15_unpadded_scenario_counterexample :
    Header.keys (scenarioHeaderWith (RawURLEncoding.EncodeToString scenarioSignature)) =
        [ascii "X-Fident-Identity-Id", ascii "X-Fident-Signature"] ∧
      storedValue (scenarioHeaderWith (RawURLEncoding.EncodeToString scenarioSignature))
        (ascii "X-Fident-Identity-Id") = ascii "u-9" ∧
      IsURLSafeBase64Of
        (storedValue (scenarioHeaderWith (RawURLEncoding.EncodeToString scenarioSignature))
          (ascii "X-Fident-Signature")) scenarioSignature ∧
      toyCrypto.VerifyPKCS1v15 ()
        (toyCrypto.sha256 (ascii "/orders/42?x=1X-Fident-Identity-Idu-9"))
        scenarioSignature = true ∧
      Verify toyCrypto (some ()) ⟨ascii "/orders/42?x=1",
        scenarioHeaderWith (RawURLEncoding.EncodeToString scenarioSignature)⟩ = false :=
  ⟨by decide, by decide, Or.inr (by decide), by decide, by decide⟩

/-- C15, amended: for the request with request-target `/orders/42?x=1` and exactly the
headers `X-Fident-Identity-Id: u-9` and `X-Fident-Signature: <sig>`, enumerated in any
order, the canonical message is `/orders/42?x=1X-Fident-Identity-Idu-9` and `GetIdentityID`
returns `u-9`, whatever `<sig>` is; `Verify` returns true whenever `<sig>` is the padded
URL-safe base64 (`base64.URLEncoding`) of a signature the primitive accepts for the SHA-256
digest of that message under the held key, and false when `<sig>` is the encoding without
padding of a signature whose length is not a multiple of 3. -/
theorem c15_end_to_end_scenario {PK : Type} (C : Crypto PK) (key : PK)
    (sigEncoded : GoString) (h : Header) (hperm : h.Perm (scenarioHeaderWith sigEncoded)) :
    canonicalMessage ⟨ascii "/orders/42?x=1", h⟩ =
        ascii "/orders/42?x=1X-Fident-Identity-Idu-9" ∧
      GetIdentityID ⟨ascii "/orders/42?x=1", h⟩ = ascii "u-9" ∧
      (∀ sig : List Nat, (∀ x ∈ sig, x < 256) →
        sigEncoded = URLEncoding.EncodeToString sig →
        C.VerifyPKCS1v15 key
          (C.sha256 (ascii "/orders/42?x=1X-Fident-Identity-Idu-9")) sig = true →
        Verify C (some key) ⟨ascii "/orders/42?x=1", h⟩ = true) ∧
      (∀ sig : List Nat, sig.length % 3 ≠ 0 →
        sigEncoded = RawURLEncoding.EncodeToString sig →
        Verify C (some key) ⟨ascii "/orders/42?x=1", h⟩ = false) := by
  have hu := scenarioHeaderWith_uniqueKeys sigEncoded
  have hget : ∀ k, Header.Get h k = Header.Get (scenarioHeaderWith sigEncoded) k :=
    fun k => (Get_eq_of_perm hperm.symm hu k).symm
  have hm : canonicalMessage ⟨ascii "/orders/42?x=1", h⟩ =
      ascii "/orders/42?x=1X-Fident-Identity-Idu-9" := by
    rw [← scenarioHeaderWith_message sigEncoded]
    apply canonicalMessage_congr
    · exact (hperm.map Prod.fst).filter _
    · intro k _
      exact hget k
  have hsigval : Header.Get h getFidentSignatureHeaderKey = sigEncoded := by
    rw [hget, scenarioHeaderWith_signature]
  refine ⟨hm, ?_, ?_, ?_⟩
  · unfold GetIdentityID
    simp only
    rw [hget, scenarioHeaderWith_identity]
  · intro sig hbytes henc hsig
    rw [Verify_iff]
    refine ⟨key, sig, rfl, ?_, ?_⟩
    · simp only
      rw [hsigval, henc]
      exact decodeFrom_padded sig hbytes
    · rw [hm]
      exact hsig
  · intro sig hlen henc
    apply Verify_false_of_decode
    simp only
    rw [hsigval, henc]
    exact decodeFrom_raw sig hlen

/-- Witness of C15 as amended: the scenario with the signature `toyCrypto` accepts, its two
headers enumerated signature first. -/
theorem c15_end_to_end_scenario_witness :
    (∀ x ∈ scenarioSignature, x < 256) ∧
      toyCrypto.VerifyPKCS1v15 ()
        (toyCrypto.sha256 (ascii "/orders/42?x=1X-Fident-Identity-Idu-9"))
        scenarioSignature = true ∧
      canonicalMessage ⟨ascii "/orders/42?x=1", scenarioHeader.reverse⟩ =
        ascii "/orders/42?x=1X-Fident-Identity-Idu-9" ∧
      GetIdentityID ⟨ascii "/orders/42?x=1", scenarioHeader.reverse⟩ = ascii "u-9" ∧
      Verify toyCrypto (some ()) ⟨ascii "/orders/42?x=1", scenarioHeader.reverse⟩ = true :=
  have h := c15_end_to_end_scenario toyCrypto ()
    (URLEncoding.EncodeToString scenarioSignature) scenarioHeader.reverse
    (List.reverse_perm scenarioHeader)
  ⟨by decide, by decide, h.1, h.2.1, h.2.2.1 scenarioSignature (by decide) rfl (by decide)⟩

end Gofident
